import Mathlib

/-!
# rest-layer-sql: the query and schema compiler of `query.go`

A shallow embedding of the statement builders of `src/query.go` and a
verification of the behaviour documented for them.

Modelling conventions

* A Go `string` is a Lean `String` (the text is assumed to be valid UTF-8, so
  that `range` over a string visits its characters); `len` is the length in
  bytes (`String.utf8ByteSize`) and a slice expression `s[:k]` is
  `goSliceTo s k`, which aborts when `k` is out of range.
* A Go `interface{}` value is a `Value`.
* A Go map is the list of its entries in the order in which `range` visits
  them during the call; theorems quantify over every such list, hence over
  every iteration order.
* A call that aborts with a run-time panic yields `none`; a call that returns
  yields `some` of the returned triple `(sqlQuery, sqlParams, err)`.
-/

namespace SqlStorage

/-! ## Go values -/

/-- A Go `interface{}` value as it reaches the builders. -/
inductive Value where
  /-- the untyped `nil` interface value -/
  | nil
  /-- a value of type `string` -/
  | str (s : String)
  /-- a value of type `int` -/
  | int (n : Int)
  /-- a value of type `bool` -/
  | bool (b : Bool)
  /-- a value of another scalar type (`float64`, `int64`, `time.Time`, ...),
  identified by its type name and a printed form -/
  | scalar (typeName : String) (repr : String)
  /-- a value of kind `Slice` or `Array`, e.g. the `[]Value` of an `In` node -/
  | slice (vs : List Value)
  /-- a value of type `AutoIncrementingInteger` -/
  | autoIncrement
  /-- the wrapper returned by `pq.Array` -/
  | pqArray (v : Value)
  deriving Repr

/-- The errors of the package: `resource.ErrNotImplemented`. -/
inductive Error where
  | ErrNotImplemented
  deriving DecidableEq, Repr

/-- The triple `(sqlQuery, sqlParams, err)` returned by every builder. -/
structure Ret where
  sqlQuery : String
  sqlParams : List Value
  err : Option Error

/-! ## Go strings -/

/-- Go `len(s)`: the number of bytes of `s`. -/
def goLen (s : String) : Nat := s.utf8ByteSize

/-- Go `s[:k]`: the first `k` bytes of `s`; a run-time panic (`none`) when `k`
is negative or exceeds `len(s)`. -/
def goSliceTo (s : String) (k : Int) : Option String :=
  if 0 ≤ k ∧ k ≤ (goLen s : Int) then some (s.extract 0 ⟨k.toNat⟩) else none

/-- Go `strings.Join(elems, sep)`. -/
def stringsJoin : List String → String → String
  | [], _ => ""
  | [a], _ => a
  | a :: b :: rest, sep => a ++ sep ++ stringsJoin (b :: rest) sep

/-- Go `fmt.Sprintf("%d", n)` for an `int`. -/
def fmtInt (n : Int) : String :=
  if n < 0 then "-" ++ Nat.repr (-n).toNat else Nat.repr n.toNat

/-- Number of `?` characters of a text. -/
def countQ (s : String) : Nat := s.data.count '?'

/-! ## Dialect transform -/

/-- The loop of `transformQuery_postgres`: `idx` is the running marker number
and `newSqlQuery` the text built so far. -/
def transformQuery_postgres.loop : List Char → Nat → String → String
  | [], _, newSqlQuery => newSqlQuery
  | ch :: rest, idx, newSqlQuery =>
    if ch = '?' then
      transformQuery_postgres.loop rest (idx + 1) (newSqlQuery ++ ("$" ++ Nat.repr idx))
    else
      transformQuery_postgres.loop rest idx (newSqlQuery ++ String.singleton ch)

/-- Function `transformQuery_postgres` (query.go 332-344). -/
def transformQuery_postgres (sqlQuery : String) : String :=
  transformQuery_postgres.loop sqlQuery.data 1 ""

/-- Function `transformQuery` (query.go 322-330). -/
def transformQuery (sqlQuery : String) (sqlBackend : String) : String :=
  if sqlBackend = "sqlite3" ∨ sqlBackend = "mysql" then sqlQuery
  else if sqlBackend = "postgres" then transformQuery_postgres sqlQuery
  else sqlQuery

/-- Function `transformParams_postgres` (query.go 357-371). `reflect.TypeOf(nil)` is the
nil `Type`, on which the call `t.Kind()` panics. -/
def transformParams_postgres : List Value → Option (List Value)
  | [] => some []
  | p :: rest =>
    match p with
    | .nil => none
    | .slice vs =>
      (transformParams_postgres rest).map fun ps => Value.pqArray (.slice vs) :: ps
    | p => (transformParams_postgres rest).map fun ps => p :: ps

/-- Function `transformParams` (query.go 346-354). -/
def transformParams (sqlParams : List Value) (sqlBackend : String) : Option (List Value) :=
  if sqlBackend = "sqlite3" ∨ sqlBackend = "mysql" then some sqlParams
  else if sqlBackend = "postgres" then transformParams_postgres sqlParams
  else some sqlParams

/-- The common last line of the builders:
`return transformQuery(sqlQuery, sqlBackend), transformParams(sqlParams, sqlBackend), nil`. -/
def finish (sqlQuery : String) (sqlParams : List Value) (sqlBackend : String) : Option Ret :=
  (transformParams sqlParams sqlBackend).map fun ps =>
    { sqlQuery := transformQuery sqlQuery sqlBackend, sqlParams := ps, err := none }

/-- The common error return `return "", []interface{}{}, err`. -/
def failWith (e : Error) : Ret := { sqlQuery := "", sqlParams := [], err := some e }

/-! ## Predicates (package `query`) -/

/-- A node of a predicate: `query.Expression`. `Unsupported` stands for every
expression kind outside the ten kinds of the type switch of
`translatePredicate` (`Regex`, `Exist`, ...). -/
inductive Expression where
  | And (subs : List Expression)
  | Or (subs : List Expression)
  | In (Field : String) (Values : List Value)
  | NotIn (Field : String) (Values : List Value)
  | Equal (Field : String) (Value : Value)
  | NotEqual (Field : String) (Value : Value)
  | GreaterThan (Field : String) (Value : Value)
  | GreaterOrEqual (Field : String) (Value : Value)
  | LowerThan (Field : String) (Value : Value)
  | LowerOrEqual (Field : String) (Value : Value)
  | Unsupported

/-- The type `query.Predicate`: a sequence of expressions. -/
abbrev Predicate := List Expression

/-- The outcome of the inner loop of the `And` and `Or` cases. -/
inductive SubsOutcome where
  /-- the loop ran to its end with joined text `s` and parameters `sqlParams` -/
  | done (s : String) (sqlParams : List Value)
  /-- a sub-translation failed: `return "", []interface{}{}, err` -/
  | failed (e : Error)

mutual
/-- One pass through the type switch of `translatePredicate` (query.go
189-250) for the node `exp`, from the running `sqlQuery` and `sqlParams`.
The result carries the updated text and parameters, or the error return. -/
def translateNode : Expression → String → List Value → Option Ret
  | .And subs, sqlQuery, sqlParams =>
    match translateSubs " AND " subs "" sqlParams with
    | none => none
    | some (.failed e) => some (failWith e)
    | some (.done s ps) =>
      match goSliceTo s ((goLen s : Int) - 5) with
      | none => none
      | some t => some ⟨sqlQuery ++ ("(" ++ t ++ ")"), ps, none⟩
  | .Or subs, sqlQuery, sqlParams =>
    match translateSubs " OR " subs "" sqlParams with
    | none => none
    | some (.failed e) => some (failWith e)
    | some (.done s ps) =>
      match goSliceTo s ((goLen s : Int) - 4) with
      | none => none
      | some t => some ⟨sqlQuery ++ ("(" ++ t ++ ")"), ps, none⟩
  | .In f vs, sqlQuery, sqlParams =>
    some ⟨sqlQuery ++ (f ++ " IN (?)"), sqlParams ++ [.slice vs], none⟩
  | .NotIn f vs, sqlQuery, sqlParams =>
    some ⟨sqlQuery ++ (f ++ " NOT IN (?)"), sqlParams ++ [.slice vs], none⟩
  | .Equal f v, sqlQuery, sqlParams =>
    match v with
    | .str _ => some ⟨sqlQuery ++ (f ++ " LIKE ?"), sqlParams ++ [v], none⟩
    | .int _ => some ⟨sqlQuery ++ (f ++ " = ?"), sqlParams ++ [v], none⟩
    | _ => some ⟨sqlQuery ++ (f ++ " IS ?"), sqlParams ++ [v], none⟩
  | .NotEqual f v, sqlQuery, sqlParams =>
    match v with
    | .str _ => some ⟨sqlQuery ++ (f ++ " NOT LIKE ?"), sqlParams ++ [v], none⟩
    | _ => some ⟨sqlQuery ++ (f ++ " IS NOT ?"), sqlParams ++ [v], none⟩
  | .GreaterThan f v, sqlQuery, sqlParams =>
    some ⟨sqlQuery ++ (f ++ " > ?"), sqlParams ++ [v], none⟩
  | .GreaterOrEqual f v, sqlQuery, sqlParams =>
    some ⟨sqlQuery ++ (f ++ " >= ?"), sqlParams ++ [v], none⟩
  | .LowerThan f v, sqlQuery, sqlParams =>
    some ⟨sqlQuery ++ (f ++ " < ?"), sqlParams ++ [v], none⟩
  | .LowerOrEqual f v, sqlQuery, sqlParams =>
    some ⟨sqlQuery ++ (f ++ " <= ?"), sqlParams ++ [v], none⟩
  | .Unsupported, _, _ => some (failWith .ErrNotImplemented)
/-- The loop `for _, subExp := range *t` of the `And` and `Or` cases with joiner
`j`: each pass calls `translatePredicate(query.Predicate{subExp})`, which is
`translateNode subExp "" []`, appends its parameters to `sqlParams` and its
text followed by the joiner to `s`. -/
def translateSubs : String → List Expression → String → List Value → Option SubsOutcome
  | _, [], s, sqlParams => some (.done s sqlParams)
  | j, subExp :: rest, s, sqlParams =>
    match translateNode subExp "" [] with
    | none => none
    | some r =>
      match r.err with
      | some e => some (.failed e)
      | none => translateSubs j rest (s ++ (r.sqlQuery ++ j)) (sqlParams ++ r.sqlParams)
end

/-- The loop `for i, exp := range q` of `translatePredicate`. -/
def translatePredicate.loop : List Expression → Nat → String → List Value → Option Ret
  | [], _, sqlQuery, sqlParams => some ⟨sqlQuery, sqlParams, none⟩
  | exp :: rest, i, sqlQuery, sqlParams =>
    match translateNode exp (if i > 0 then sqlQuery ++ " AND " else sqlQuery) sqlParams with
    | none => none
    | some r =>
      match r.err with
      | some e => some (failWith e)
      | none => translatePredicate.loop rest (i + 1) r.sqlQuery r.sqlParams

/-- Function `translatePredicate` (query.go 184-253). -/
def translatePredicate (q : Predicate) : Option Ret :=
  translatePredicate.loop q 0 "" []

/-! ## Queries and items -/

/-- An entry of `query.Sort`. -/
structure SortField where
  Name : String
  Reversed : Bool

/-- The type `query.Window`. -/
structure Window where
  Offset : Int
  Limit : Int

/-- The type `query.Query`; `Window` is a pointer, `none` when nil. -/
structure Query where
  Predicate : Predicate
  /-- the field `Sort` -/
  Sort_ : List SortField
  Window : Option Window

/-- The type `resource.Item`. The payload map is given as the list of its
entries in iteration order. -/
structure Item where
  ID : Value
  ETag : String
  Payload : List (String × Value)

/-- The test `_, ok := m[k]` on a payload map. -/
def hasKey (m : List (String × Value)) (k : String) : Bool :=
  m.any fun kv => kv.1 == k

/-- Function `buildPredicateQuery` (query.go 151-153). -/
def buildPredicateQuery (q : Query) : Option Ret :=
  translatePredicate q.Predicate

/-- The loop of `buildSortQuery`. -/
def buildSortQuery.loop : List SortField → String → String
  | [], sqlQuery => sqlQuery
  | s :: rest, sqlQuery =>
    buildSortQuery.loop rest
      ((if s.Reversed then (sqlQuery ++ s.Name) ++ " DESC" else sqlQuery ++ s.Name) ++ ",")

/-- Function `buildSortQuery` (query.go 155-167); it never returns an error, so only the
text is kept. -/
def buildSortQuery (q : Query) : Option String :=
  if q.Sort_.length = 0 then some ""
  else
    let sqlQuery := buildSortQuery.loop q.Sort_ ""
    goSliceTo sqlQuery ((goLen sqlQuery : Int) - 1)

/-- Function `buildPaginationQuery` (query.go 169-182); it never returns an error. -/
def buildPaginationQuery (q : Query) : String :=
  match q.Window with
  | none => ""
  | some w =>
    let sqlQuery := if w.Limit > 0 then "" ++ (" LIMIT " ++ fmtInt w.Limit) else ""
    if w.Offset > 0 then sqlQuery ++ (" OFFSET " ++ fmtInt w.Offset) else sqlQuery

/-- Function `buildSelectQuery` (query.go 29-58). -/
def buildSelectQuery (tableName : String) (q : Query) (sqlBackend : String) : Option Ret :=
  match buildPredicateQuery q with
  | none => none
  | some p =>
    match p.err with
    | some e => some (failWith e)
    | none =>
      match buildSortQuery q with
      | none => none
      | some sortQuery =>
        let paginationQuery := buildPaginationQuery q
        let sqlQuery := "SELECT * FROM " ++ tableName
        let sqlParams : List Value := []
        let sqlParams := if p.sqlQuery ≠ "" then sqlParams ++ p.sqlParams else sqlParams
        let sqlQuery := if p.sqlQuery ≠ "" then sqlQuery ++ (" WHERE " ++ p.sqlQuery) else sqlQuery
        let sqlQuery := if sortQuery ≠ "" then sqlQuery ++ (" ORDER BY " ++ sortQuery) else sqlQuery
        let sqlQuery :=
          if paginationQuery ≠ "" then sqlQuery ++ (" " ++ paginationQuery) else sqlQuery
        finish sqlQuery sqlParams sqlBackend

/-- Function `buildClearQuery` (query.go 134-148). -/
def buildClearQuery (tableName : String) (q : Query) (sqlBackend : String) : Option Ret :=
  match buildPredicateQuery q with
  | none => none
  | some p =>
    match p.err with
    | some e => some (failWith e)
    | none =>
      let sqlQuery := "DELETE FROM " ++ tableName
      let sqlParams : List Value := []
      let sqlParams := if p.sqlQuery ≠ "" then sqlParams ++ p.sqlParams else sqlParams
      let sqlQuery := if p.sqlQuery ≠ "" then sqlQuery ++ (" WHERE " ++ p.sqlQuery) else sqlQuery
      finish sqlQuery sqlParams sqlBackend

/-- The variables of the loop of `buildInsertQuery`. -/
structure InsertState where
  columnsStr : String
  valuesStr : String
  sqlParams : List Value
  returningColumns : List String

/-- The loop `for k, v := range i.Payload` of `buildInsertQuery`. -/
def buildInsertQuery.loop : List (String × Value) → InsertState → InsertState
  | [], st => st
  | (k, v) :: rest, st =>
    match v with
    | .autoIncrement =>
      buildInsertQuery.loop rest { st with returningColumns := st.returningColumns ++ [k] }
    | v =>
      buildInsertQuery.loop rest
        { st with
          columnsStr := st.columnsStr ++ (k ++ ",")
          valuesStr := st.valuesStr ++ "?,"
          sqlParams := st.sqlParams ++ [v] }

/-- Function `buildInsertQuery` (query.go 62-90). -/
def buildInsertQuery (tableName : String) (i : Item) (sqlBackend : String) : Option Ret :=
  let st := buildInsertQuery.loop i.Payload
    { columnsStr := "etag,", valuesStr := "?,", sqlParams := [.str i.ETag],
      returningColumns := [] }
  match goSliceTo st.columnsStr ((goLen st.columnsStr : Int) - 1) with
  | none => none
  | some columnsStr =>
    match goSliceTo st.valuesStr ((goLen st.valuesStr : Int) - 1) with
    | none => none
    | some valuesStr =>
      let returningStr :=
        if st.returningColumns.length > 0 then
          "" ++ (" RETURNING " ++ stringsJoin st.returningColumns ",")
        else ""
      let sqlQuery :=
        "INSERT INTO " ++ tableName ++ " (" ++ columnsStr ++ ") VALUES (" ++ valuesStr ++ ")"
          ++ returningStr
      finish sqlQuery st.sqlParams sqlBackend

/-- The first loop of `buildUpdateQuery`, over the new payload. -/
def buildUpdateQuery.setLoop : List (String × Value) → String → List Value → String × List Value
  | [], setStr, sqlParams => (setStr, sqlParams)
  | (k, v) :: rest, setStr, sqlParams =>
    if k ≠ "id" then buildUpdateQuery.setLoop rest (setStr ++ (k ++ "=?,")) (sqlParams ++ [v])
    else buildUpdateQuery.setLoop rest setStr sqlParams

/-- The second loop of `buildUpdateQuery`, over the previous payload; `new` is
the new payload. -/
def buildUpdateQuery.nullLoop (new : List (String × Value)) :
    List (String × Value) → String → String
  | [], setStr => setStr
  | (k, _) :: rest, setStr =>
    if hasKey new k = false then buildUpdateQuery.nullLoop new rest (setStr ++ (k ++ "=NULL,"))
    else buildUpdateQuery.nullLoop new rest setStr

/-- Function `buildUpdateQuery` (query.go 93-119). -/
def buildUpdateQuery (tableName : String) (i : Item) (o : Item) (sqlBackend : String) :
    Option Ret :=
  let (setStr, sqlParams) := buildUpdateQuery.setLoop i.Payload "etag=?," [.str i.ETag]
  let setStr := buildUpdateQuery.nullLoop i.Payload o.Payload setStr
  match goSliceTo setStr ((goLen setStr : Int) - 1) with
  | none => none
  | some setStr =>
    let sqlParams := sqlParams ++ [o.ID]
    let sqlParams := sqlParams ++ [.str o.ETag]
    let sqlQuery := "UPDATE " ++ tableName ++ " SET " ++ setStr ++ " WHERE id=? AND etag=?"
    finish sqlQuery sqlParams sqlBackend

/-- Function `buildDeleteQuery` (query.go 121-131). -/
def buildDeleteQuery (tableName : String) (i : Item) (sqlBackend : String) : Option Ret :=
  let sqlParams : List Value := [i.ID]
  let sqlQuery := "DELETE FROM " ++ tableName ++ " WHERE id = ?"
  if i.ETag ≠ "" then finish (sqlQuery ++ " AND etag = ?") (sqlParams ++ [.str i.ETag]) sqlBackend
  else finish sqlQuery sqlParams sqlBackend

/-! ## Schemas (package `schema`) -/

mutual
/-- A `schema.FieldValidator`. `Unrecognised` stands for every validator kind
outside the cases of the type switch of `checkType` (`Dict`, `Array`, `IP`,
a nil validator, ...). -/
inductive Validator where
  | String (MaxLen : Int)
  | Integer
  | Float
  | Bool
  | Time
  | URL
  | Password
  /-- the marker type `Table` of `table.go` -/
  | Table
  /-- a `*schema.Reference`; `none` is the nil pointer -/
  | Reference (r : Option Reference)
  | Unrecognised
/-- The type `schema.Reference`: its field `SchemaValidator`, `none` when nil. -/
inductive Reference where
  | mk (SchemaValidator : Option SchemaValidator)
/-- A `schema.Validator` as `checkType` consults it: the answers of
`GetField("id")` and `GetField("table")`, `none` when nil. -/
inductive SchemaValidator where
  | mk (id : Option Field) (table : Option Field)
/-- The type `schema.Field`: its validator and its default value. -/
inductive Field where
  | mk (Validator : Validator) (Default : Value)
end

/-- The field `Validator` of a `schema.Field`. -/
def Field.Validator : Field → Validator
  | .mk v _ => v

/-- The field `Default` of a `schema.Field`. -/
def Field.Default : Field → Value
  | .mk _ d => d

/-- The type `schema.Schema`: the map `Fields`, as the list of its entries in
iteration order. -/
structure Schema where
  Fields : List (String × Field)

/-- The part of package `fmt` that the schema compiler relies on beyond plain
substitution of strings. -/
structure Fmt where
  /-- the call `fmt.Sprintf(format, operands...)` for a format computed at run
  time and string operands -/
  Sprintf : String → List String → String
  /-- the text printed for a non-string operand under the verb `%s`
  (such as `%!s(int=5)`) -/
  verbS : Value → String

/-- The text printed under the verb `%s`: a string operand is printed as it is. -/
def Fmt.sprintS (fmt : Fmt) : Value → String
  | .str s => s
  | v => fmt.verbS v

/-- Function `checkType` (query.go 255-302). -/
def checkType (fmt : Fmt) : Validator → String
  | .String MaxLen =>
    if MaxLen > 200 then "%s LONGTEXT"
    else if MaxLen > 0 then "%s VARCHAR" ++ ("(" ++ fmtInt MaxLen ++ ")")
    else "%s VARCHAR" ++ "(10000)"
  | .Integer => "%s INTEGER"
  | .Float => "%s FLOAT"
  | .Bool => "%s BIT(1)"
  | .Time => "%s TIMESTAMP"
  | .URL => "%s VARCHAR"
  | .Password => "%s VARCHAR"
  | .Table => ","
  | .Reference none => ""
  | .Reference (some (.mk none)) => ""
  | .Reference (some (.mk (some (.mk none _)))) => ""
  | .Reference (some (.mk (some (.mk (some (.mk idValidator _)) none)))) =>
    checkType fmt idValidator
  | .Reference (some (.mk (some (.mk (some (.mk idValidator _)) (some (.mk _ tableDefault)))))) =>
    checkType fmt idValidator ++ ", FOREIGN KEY (%s) REFERENCES " ++ fmt.sprintS tableDefault
      ++ "(id)"
  | .Unrecognised => ""

/-- Go `strings.Count(s, "%")`. -/
def countPercent (s : String) : Nat := s.data.count '%'

/-- The outcome of the loop of `buildSchemaQuery`. -/
inductive SchemaOutcome where
  /-- the loop ran to its end with text `sqlQuery` -/
  | done (sqlQuery : String)
  /-- a field had an empty column type: `return "", []interface{}{}, resource.ErrNotImplemented` -/
  | failed (e : Error)

/-- The loop `for fieldName, field := range s.Fields` of `buildSchemaQuery`. -/
def buildSchemaQuery.loop (fmt : Fmt) : List (String × Field) → String → SchemaOutcome
  | [], sqlQuery => .done sqlQuery
  | (fieldName, field) :: rest, sqlQuery =>
    let fieldType := checkType fmt field.Validator
    if goLen fieldType = 0 then .failed .ErrNotImplemented
    else if fieldType ≠ "," then
      if countPercent fieldType = 2 then
        buildSchemaQuery.loop fmt rest
          (sqlQuery ++ fmt.Sprintf fieldType [fieldName, fieldName] ++ ",")
      else
        buildSchemaQuery.loop fmt rest (sqlQuery ++ fmt.Sprintf fieldType [fieldName] ++ ",")
    else buildSchemaQuery.loop fmt rest sqlQuery

/-- Function `buildSchemaQuery` (query.go 304-320). -/
def buildSchemaQuery (fmt : Fmt) (s : Schema) : Option Ret :=
  match buildSchemaQuery.loop fmt s.Fields "etag VARCHAR(512)," with
  | .failed e => some (failWith e)
  | .done sqlQuery =>
    match goSliceTo sqlQuery ((goLen sqlQuery : Int) - 1) with
    | none => none
    | some t => some ⟨t, [], none⟩

/-- Function `buildCreateQuery` (query.go 16-26). -/
def buildCreateQuery (fmt : Fmt) (tableName : String) (s : Schema) (sqlBackend : String) :
    Option Ret :=
  match buildSchemaQuery fmt s with
  | none => none
  | some r =>
    match r.err with
    | some e => some (failWith e)
    | none =>
      let sqlQuery := "CREATE TABLE IF NOT EXISTS " ++ tableName ++ " (" ++ r.sqlQuery ++ ")"
      let sqlParams : List Value := [] ++ r.sqlParams
      finish sqlQuery sqlParams sqlBackend

/-! ## Specification-side functions -/

/-- The text described for the positional dialect: the segments of a text cut
at its `?` characters, joined again with the markers `$k`, `$(k+1)`, ... -/
def numberSegments : List String → Nat → String
  | [], _ => ""
  | [s], _ => s
  | s :: t :: rest, k => s ++ ("$" ++ Nat.repr k) ++ numberSegments (t :: rest) (k + 1)

/-- Whether a payload value is the `AutoIncrementingInteger` marker. -/
def isAutoIncrement : Value → Bool
  | .autoIncrement => true
  | _ => false

/-- The fragments of a list, each followed by a comma: the text that the
builders accumulate before they cut the last comma off. -/
def commaEach : List String → String
  | [] => ""
  | f :: fs => f ++ "," ++ commaEach fs

/-- The fragments of a list, each followed by the joiner `j`: the text that
the `And` and `Or` cases accumulate before they cut the last joiner off. -/
def joinerEach (j : String) : List String → String
  | [] => ""
  | f :: fs => f ++ j ++ joinerEach j fs

/-- The operator that the `Equal` case chooses from the type of the literal. -/
def equalOp : Value → String
  | .str _ => " LIKE ?"
  | .int _ => " = ?"
  | _ => " IS ?"

/-- The operator that the `NotEqual` case chooses from the type of the literal. -/
def notEqualOp : Value → String
  | .str _ => " NOT LIKE ?"
  | _ => " IS NOT ?"

mutual
/-- The text described for one node: a leaf is its field name followed by its
operator and one placeholder, an `And` or `Or` is the texts of its
sub-expressions joined by ` AND ` or ` OR ` within parentheses. -/
def renderNode : Expression → String
  | .And subs => "(" ++ stringsJoin (renderAll subs) " AND " ++ ")"
  | .Or subs => "(" ++ stringsJoin (renderAll subs) " OR " ++ ")"
  | .In f _ => f ++ " IN (?)"
  | .NotIn f _ => f ++ " NOT IN (?)"
  | .Equal f v => f ++ equalOp v
  | .NotEqual f v => f ++ notEqualOp v
  | .GreaterThan f _ => f ++ " > ?"
  | .GreaterOrEqual f _ => f ++ " >= ?"
  | .LowerThan f _ => f ++ " < ?"
  | .LowerOrEqual f _ => f ++ " <= ?"
  | .Unsupported => ""
/-- The texts of the nodes of a sequence, in order. -/
def renderAll : List Expression → List String
  | [] => []
  | e :: es => renderNode e :: renderAll es
end

mutual
/-- The values of the leaves below a node in left-to-right traversal order;
the value of an `In` or `NotIn` leaf is its whole value sequence. -/
def leafValues : Expression → List Value
  | .And subs => leafValuesAll subs
  | .Or subs => leafValuesAll subs
  | .In _ vs => [.slice vs]
  | .NotIn _ vs => [.slice vs]
  | .Equal _ v => [v]
  | .NotEqual _ v => [v]
  | .GreaterThan _ v => [v]
  | .GreaterOrEqual _ v => [v]
  | .LowerThan _ v => [v]
  | .LowerOrEqual _ v => [v]
  | .Unsupported => []
/-- The values of the leaves of a sequence of nodes, in traversal order. -/
def leafValuesAll : List Expression → List Value
  | [] => []
  | e :: es => leafValues e ++ leafValuesAll es
end

mutual
/-- Whether the node test `p` holds at a node and at every node below it. -/
def Expression.every (p : Expression → Bool) : Expression → Bool
  | .And subs => p (.And subs) && everyAll p subs
  | .Or subs => p (.Or subs) && everyAll p subs
  | .In f vs => p (.In f vs)
  | .NotIn f vs => p (.NotIn f vs)
  | .Equal f v => p (.Equal f v)
  | .NotEqual f v => p (.NotEqual f v)
  | .GreaterThan f v => p (.GreaterThan f v)
  | .GreaterOrEqual f v => p (.GreaterOrEqual f v)
  | .LowerThan f v => p (.LowerThan f v)
  | .LowerOrEqual f v => p (.LowerOrEqual f v)
  | .Unsupported => p .Unsupported
/-- Whether the node test `p` holds at every node of a sequence of trees. -/
def everyAll (p : Expression → Bool) : List Expression → Bool
  | [] => true
  | e :: es => Expression.every p e && everyAll p es
end

/-- Node test: the node is of one of the ten supported kinds. -/
def nodeSupported : Expression → Bool
  | .Unsupported => false
  | _ => true

/-- Node test: an `And` or `Or` node wraps at least one sub-expression. -/
def nodeNonEmpty : Expression → Bool
  | .And [] => false
  | .Or [] => false
  | _ => true

/-- Node test: the field name of a leaf holds no `?`. -/
def nodeFieldClean : Expression → Bool
  | .In f _ => countQ f == 0
  | .NotIn f _ => countQ f == 0
  | .Equal f _ => countQ f == 0
  | .NotEqual f _ => countQ f == 0
  | .GreaterThan f _ => countQ f == 0
  | .GreaterOrEqual f _ => countQ f == 0
  | .LowerThan f _ => countQ f == 0
  | .LowerOrEqual f _ => countQ f == 0
  | _ => true

/-- The fragments of a list, each preceded by the joiner `j`. -/
def prefixEach (j : String) : List String → String
  | [] => ""
  | f :: fs => j ++ f ++ prefixEach j fs

/-- Whether a validator is a reference with a missing link: a nil reference,
a reference without schema validator, or a reference whose schema has no
field `id`. -/
def brokenReference : Validator → Bool
  | .Reference none => true
  | .Reference (some (.mk none)) => true
  | .Reference (some (.mk (some (.mk none _)))) => true
  | _ => false

/-- The parameter described for the positional dialect: a sequence is wrapped
by `pq.Array`, any other value is kept. -/
def wrapArray : Value → Value
  | .slice vs => .pqArray (.slice vs)
  | v => v

/-- Whether a value is the untyped nil. -/
def isNil : Value → Bool
  | .nil => true
  | _ => false

/-- The marker of the positional dialect for the parameter number `k`. -/
def marker (k : Nat) : String := "$" ++ Nat.repr k

/-- The operator of the `Equal` case with the marker `$k` as placeholder. -/
def equalOpNumbered (k : Nat) : Value → String
  | .str _ => " LIKE " ++ marker k
  | .int _ => " = " ++ marker k
  | _ => " IS " ++ marker k

/-- The operator of the `NotEqual` case with the marker `$k` as placeholder. -/
def notEqualOpNumbered (k : Nat) : Value → String
  | .str _ => " NOT LIKE " ++ marker k
  | _ => " IS NOT " ++ marker k

mutual
/-- The text of a node in which the placeholder of every leaf is replaced by
the marker that carries the position of the value of that leaf among the
values of all leaves in traversal order, `k` being the position of the first
leaf below the node. -/
def renderNumbered : Expression → Nat → String
  | .And subs, k => "(" ++ stringsJoin (renderNumberedAll subs k) " AND " ++ ")"
  | .Or subs, k => "(" ++ stringsJoin (renderNumberedAll subs k) " OR " ++ ")"
  | .In f _, k => f ++ (" IN (" ++ marker k ++ ")")
  | .NotIn f _, k => f ++ (" NOT IN (" ++ marker k ++ ")")
  | .Equal f v, k => f ++ equalOpNumbered k v
  | .NotEqual f v, k => f ++ notEqualOpNumbered k v
  | .GreaterThan f _, k => f ++ (" > " ++ marker k)
  | .GreaterOrEqual f _, k => f ++ (" >= " ++ marker k)
  | .LowerThan f _, k => f ++ (" < " ++ marker k)
  | .LowerOrEqual f _, k => f ++ (" <= " ++ marker k)
  | .Unsupported, _ => ""
/-- The numbered texts of the nodes of a sequence; a node starts at the
position that follows the leaves of the nodes before it. -/
def renderNumberedAll : List Expression → Nat → List String
  | [], _ => []
  | e :: es, k => renderNumbered e k :: renderNumberedAll es (k + (leafValues e).length)
end

/-- Number of `$` characters of a text. -/
def countDollar (s : String) : Nat := s.data.count '$'

/-- Whether a sequence of characters starts with a decimal digit. -/
def startsDigitL : List Char → Bool
  | [] => false
  | c :: _ => c.isDigit

/-- Whether a text starts with a decimal digit. -/
def startsWithDigit (s : String) : Bool := startsDigitL s.data

/-- Whether no `?` of a sequence of characters is followed by a decimal digit. -/
def noDigitAfterQ : List Char → Bool
  | [] => true
  | c :: rest => (!(c == '?') || !(startsDigitL rest)) && noDigitAfterQ rest

/-- The text described for the positional dialect with `n` parameters: it holds
no `?` and exactly `n` characters `$`, and it is made of `n + 1` segments,
free of `?` and of `$`, separated by the markers `$1`, ..., `$n` in
increasing order, where no segment that follows a marker starts with a digit,
so that every `$` of the text starts a marker and the k-th marker reads `$k`. -/
def markersInOrder (text : String) (n : Nat) : Prop :=
  countQ text = 0 ∧ countDollar text = n ∧
    ∃ segs : List String, segs.length = n + 1 ∧
      (∀ s ∈ segs, countQ s = 0 ∧ countDollar s = 0) ∧
      (∀ s ∈ segs.tail, startsWithDigit s = false) ∧
      text = numberSegments segs 1

/-! ## Lemmas on Go strings -/

theorem goLen_append (s t : String) : goLen (s ++ t) = goLen s + goLen t := by
  show String.utf8Len (s.data ++ t.data) = String.utf8Len s.data + String.utf8Len t.data
  exact String.utf8Len_append _ _

/-- Cutting a suffix off by its byte length gives back the text before it. -/
theorem goSliceTo_append (s t : String) (n : Nat) (hn : goLen t = n) :
    goSliceTo (s ++ t) ((goLen (s ++ t) : Int) - n) = some s := by
  have hk : ((goLen (s ++ t) : Int) - n) = (goLen s : Int) := by
    rw [goLen_append, hn]; push_cast; ring
  rw [hk]
  have hle : (0 : Int) ≤ (goLen s : Int) ∧ (goLen s : Int) ≤ (goLen (s ++ t) : Int) := by
    rw [goLen_append]; constructor <;> omega
  simp only [goSliceTo, hle, and_self, if_true, Int.toNat_ofNat]
  have h := String.extract_of_valid [] s.data t.data
  simp only [List.nil_append, String.utf8Len_nil, Nat.zero_add] at h
  have e1 : (s ++ t) = ⟨s.data ++ t.data⟩ := rfl
  have e2 : goLen s = String.utf8Len s.data := rfl
  rw [e1, e2]
  exact congrArg some h

/-- A slice that drops more bytes than the text holds aborts. -/
theorem goSliceTo_short (s : String) (n : Nat) (h : goLen s < n) :
    goSliceTo s ((goLen s : Int) - n) = none := by
  have : ¬ ((0 : Int) ≤ (goLen s : Int) - n ∧ (goLen s : Int) - n ≤ (goLen s : Int)) := by
    omega
  rw [goSliceTo, if_neg this]

theorem countQ_append (s t : String) : countQ (s ++ t) = countQ s + countQ t := by
  simp [countQ]

/-! ## Lemmas on the dialect transform -/

theorem transformQuery_postgres_loop_acc (cs : List Char) :
    ∀ (idx : Nat) (acc : String),
      transformQuery_postgres.loop cs idx acc = acc ++ transformQuery_postgres.loop cs idx "" := by
  induction cs with
  | nil => intro idx acc; simp [transformQuery_postgres.loop]
  | cons c cs ih =>
    intro idx acc
    simp only [transformQuery_postgres.loop]
    split
    · rw [ih (idx + 1) (acc ++ _), ih (idx + 1) ("" ++ _)]
      simp [String.append_assoc]
    · rw [ih idx (acc ++ _), ih idx ("" ++ _)]
      simp [String.append_assoc]

/-- Characters other than `?` are copied. -/
theorem transformQuery_postgres_loop_plain (cs : List Char) (h : '?' ∉ cs) :
    ∀ (rest : List Char) (idx : Nat),
      transformQuery_postgres.loop (cs ++ rest) idx ""
        = String.mk cs ++ transformQuery_postgres.loop rest idx "" := by
  induction cs with
  | nil => intro rest idx; rfl
  | cons c cs ih =>
    intro rest idx
    have hc : c ≠ '?' := fun e => h (by simp [e])
    have hcs : '?' ∉ cs := fun e => h (by simp [e])
    rw [List.cons_append]
    simp only [transformQuery_postgres.loop, hc, if_false]
    rw [transformQuery_postgres_loop_acc, ih hcs rest idx]
    apply String.ext
    simp

/-- A `?` becomes the marker of the running index. -/
theorem transformQuery_postgres_loop_mark (rest : List Char) (idx : Nat) :
    transformQuery_postgres.loop ('?' :: rest) idx ""
      = ("$" ++ Nat.repr idx) ++ transformQuery_postgres.loop rest (idx + 1) "" := by
  simp only [transformQuery_postgres.loop, if_true]
  rw [transformQuery_postgres_loop_acc]
  simp

theorem transformQuery_postgres_loop_segments (segs : List String) :
    ∀ k : Nat, (∀ s ∈ segs, '?' ∉ s.data) →
      transformQuery_postgres.loop (stringsJoin segs "?").data k "" = numberSegments segs k := by
  induction segs with
  | nil => intro k _; rfl
  | cons s rest ih =>
    intro k h
    cases rest with
    | nil =>
      have hs : '?' ∉ s.data := h s (by simp)
      have := transformQuery_postgres_loop_plain s.data hs [] k
      simp only [List.append_nil] at this
      simp only [stringsJoin, numberSegments, this, transformQuery_postgres.loop]
      simp
    | cons t rest =>
      have hs : '?' ∉ s.data := h s (by simp)
      have hrest : ∀ u ∈ t :: rest, '?' ∉ u.data := fun u hu => h u (by simp [hu])
      have e : (stringsJoin (s :: t :: rest) "?").data
          = s.data ++ ('?' :: (stringsJoin (t :: rest) "?").data) := by
        simp [stringsJoin]
      rw [e, transformQuery_postgres_loop_plain s.data hs, transformQuery_postgres_loop_mark,
        ih (k + 1) hrest]
      simp [numberSegments, String.append_assoc]

/-- Every text is a sequence of `?`-free segments separated by single `?`. -/
theorem exists_segments (cs : List Char) :
    ∃ segs : List String, segs ≠ [] ∧ (∀ s ∈ segs, '?' ∉ s.data) ∧
      String.mk cs = stringsJoin segs "?" := by
  induction cs with
  | nil => exact ⟨[""], by simp, by simp, rfl⟩
  | cons c cs ih =>
    obtain ⟨segs, hne, hq, hj⟩ := ih
    cases segs with
    | nil => exact absurd rfl hne
    | cons s0 rest =>
      by_cases hc : c = '?'
      · refine ⟨"" :: s0 :: rest, by simp, ?_, ?_⟩
        · intro s hs
          rcases List.mem_cons.1 hs with h | h
          · subst h; simp
          · exact hq s h
        · simp only [stringsJoin, ← hj, hc]
          apply String.ext; simp
      · refine ⟨(String.singleton c ++ s0) :: rest, by simp, ?_, ?_⟩
        · intro s hs
          rcases List.mem_cons.1 hs with h | h
          · subst h
            have := hq s0 (by simp)
            simp only [String.data_append, String.data_singleton, List.singleton_append,
              List.mem_cons, not_or]
            exact ⟨fun e => hc e.symm, this⟩
          · exact hq s (by simp [h])
        · cases rest with
          | nil =>
            simp only [stringsJoin] at hj ⊢
            rw [← hj]; apply String.ext; simp
          | cons t rest =>
            simp only [stringsJoin] at hj ⊢
            rw [String.append_assoc, String.append_assoc, ← String.append_assoc s0, ← hj]
            apply String.ext; simp

theorem transformQuery_postgres_eq (text : String) :
    transformQuery text "postgres" = transformQuery_postgres text := by
  simp [transformQuery]

theorem transformQuery_shared (text d : String) (h : d ≠ "postgres") :
    transformQuery text d = text := by
  simp [transformQuery, h]

theorem transformParams_shared (ps : List Value) (d : String) (h : d ≠ "postgres") :
    transformParams ps d = some ps := by
  simp [transformParams, h]

theorem finish_shared (text : String) (ps : List Value) (d : String) (h : d ≠ "postgres") :
    finish text ps d = some ⟨text, ps, none⟩ := by
  simp [finish, transformQuery_shared text d h, transformParams_shared ps d h]

/-! ## The dialect transform -/

/-- C2. Under "postgres", `transformQuery` replaces the k-th `?` of a text,
counted from 1 from the left, by `$k` and copies every other character in
place: every text is a sequence of `?`-free segments separated by single `?`,
and its transform is the same segments separated by `$1`, `$2`, ... In
particular "a=? AND b=?" becomes "a=$1 AND b=$2". -/
theorem transformQuery_postgres_numbers_placeholders :
    (∀ text : String, ∃ segs : List String,
        segs ≠ [] ∧ (∀ s ∈ segs, '?' ∉ s.data) ∧ text = stringsJoin segs "?" ∧
        transformQuery text "postgres" = numberSegments segs 1) ∧
    transformQuery "a=? AND b=?" "postgres" = "a=$1 AND b=$2" := by
  refine ⟨?_, by decide⟩
  intro text
  obtain ⟨segs, hne, hq, hj⟩ := exists_segments text.data
  refine ⟨segs, hne, hq, hj, ?_⟩
  rw [transformQuery_postgres_eq, transformQuery_postgres]
  have : text = stringsJoin segs "?" := hj
  rw [this]
  exact transformQuery_postgres_loop_segments segs 1 hq

/-- C3. For every dialect identifier other than "postgres" ("sqlite3",
"mysql", the empty string and every unrecognised identifier), `transformQuery`
returns the text unchanged and `transformParams` returns the parameter list
unchanged, without aborting. -/
theorem transform_identity_off_postgres (text : String) (ps : List Value) (d : String)
    (h : d ≠ "postgres") :
    transformQuery text d = text ∧ transformParams ps d = some ps :=
  ⟨transformQuery_shared text d h, transformParams_shared ps d h⟩

theorem transform_identity_off_postgres_witness :
    (transformQuery "a=? AND b=?" "sqlite3" = "a=? AND b=?" ∧
      transformParams [.int 1, .nil, .slice [.str "x"]] "sqlite3"
        = some [.int 1, .nil, .slice [.str "x"]]) ∧
    (transformQuery "a=? AND b=?" "mysql" = "a=? AND b=?" ∧
      transformParams [.int 1, .nil] "mysql" = some [.int 1, .nil]) ∧
    (transformQuery "a=? AND b=?" "" = "a=? AND b=?" ∧
      transformParams [.nil] "" = some [.nil]) ∧
    (transformQuery "a=?" "oracle" = "a=?" ∧ transformParams [.nil] "oracle" = some [.nil]) :=
  ⟨transform_identity_off_postgres _ _ "sqlite3" (by decide),
   transform_identity_off_postgres _ _ "mysql" (by decide),
   transform_identity_off_postgres _ _ "" (by decide),
   transform_identity_off_postgres _ _ "oracle" (by decide)⟩

/-! ## Lemmas on comma-separated lists -/

theorem commaEach_append (xs ys : List String) :
    commaEach (xs ++ ys) = commaEach xs ++ commaEach ys := by
  induction xs with
  | nil => simp [commaEach]
  | cons x xs ih => simp [commaEach, ih, String.append_assoc]

theorem commaEach_eq_join (x : String) (xs : List String) :
    commaEach (x :: xs) = stringsJoin (x :: xs) "," ++ "," := by
  induction xs generalizing x with
  | nil => simp [commaEach, stringsJoin]
  | cons y ys ih => rw [commaEach, ih y]; simp [stringsJoin, String.append_assoc]

/-- Cutting the last byte of the accumulated text leaves the joined fragments. -/
theorem goSliceTo_commaEach (x : String) (xs : List String) :
    goSliceTo (commaEach (x :: xs)) ((goLen (commaEach (x :: xs)) : Int) - 1)
      = some (stringsJoin (x :: xs) ",") := by
  rw [commaEach_eq_join]
  exact goSliceTo_append _ "," 1 rfl

/-! ## Delete -/

/-- C9. Under a shared-placeholder dialect `buildDeleteQuery` returns
`DELETE FROM t WHERE id = ?` with parameters `[item.ID]` when the version tag
is empty, and `DELETE FROM t WHERE id = ? AND etag = ?` with parameters
`[item.ID, item.ETag]` otherwise; the returned error is nil in both cases. -/
theorem buildDeleteQuery_shared (t : String) (i : Item) (d : String) (h : d ≠ "postgres") :
    (i.ETag = "" →
      buildDeleteQuery t i d = some ⟨"DELETE FROM " ++ t ++ " WHERE id = ?", [i.ID], none⟩) ∧
    (i.ETag ≠ "" →
      buildDeleteQuery t i d
        = some ⟨"DELETE FROM " ++ t ++ " WHERE id = ? AND etag = ?",
            [i.ID, .str i.ETag], none⟩) := by
  constructor
  · intro he
    simp [buildDeleteQuery, he, finish_shared _ _ d h]
  · intro he
    simp [buildDeleteQuery, he, finish_shared _ _ d h, String.append_assoc]

theorem buildDeleteQuery_shared_witness :
    buildDeleteQuery "users" ⟨.int 7, "", [("name", .str "a")]⟩ "sqlite3"
      = some ⟨"DELETE FROM users WHERE id = ?", [.int 7], none⟩ ∧
    buildDeleteQuery "users" ⟨.int 7, "v1", [("name", .str "a")]⟩ "mysql"
      = some ⟨"DELETE FROM users WHERE id = ? AND etag = ?", [.int 7, .str "v1"], none⟩ :=
  ⟨(buildDeleteQuery_shared "users" ⟨.int 7, "", [("name", .str "a")]⟩ "sqlite3"
      (by decide)).1 rfl,
   (buildDeleteQuery_shared "users" ⟨.int 7, "v1", [("name", .str "a")]⟩ "mysql"
      (by decide)).2 (by decide)⟩

/-! ## Select -/

theorem ne_empty_of_append_left (a b : String) (h : a ≠ "") : a ++ b ≠ "" := by
  intro e
  apply h
  have := congrArg String.data e
  simp only [String.data_append] at this
  apply String.ext
  exact (List.append_eq_nil.1 this).1

/-- Under a shared-placeholder dialect, a window with positive limit and offset
appends two spaces and `LIMIT <limit> OFFSET <offset>` to the text built for
the same query without a window, whenever that build returns without error. -/
theorem buildSelectQuery_window_shared (t : String) (q : Query) (d : String) (l o : Int)
    (text : String) (ps : List Value) (hd : d ≠ "postgres") (hl : 0 < l) (ho : 0 < o)
    (h : buildSelectQuery t { q with Window := none } d = some ⟨text, ps, none⟩) :
    buildSelectQuery t { q with Window := some { Limit := l, Offset := o } } d
      = some ⟨text ++ ("  LIMIT " ++ fmtInt l ++ " OFFSET " ++ fmtInt o), ps, none⟩ := by
  have hp : buildPaginationQuery { q with Window := some { Limit := l, Offset := o } }
      = " LIMIT " ++ fmtInt l ++ " OFFSET " ++ fmtInt o := by
    simp [buildPaginationQuery, hl, ho, String.append_assoc]
  have hp0 : buildPaginationQuery { q with Window := none } = "" := rfl
  have hne : (" LIMIT " ++ fmtInt l ++ " OFFSET " ++ fmtInt o) ≠ "" := by
    rw [String.append_assoc, String.append_assoc]
    exact ne_empty_of_append_left _ _ (by decide)
  simp only [buildSelectQuery, buildPredicateQuery, buildSortQuery, hp, hp0] at h ⊢
  cases hq : translatePredicate q.Predicate with
  | none => simp [hq] at h
  | some p =>
    simp only [hq] at h ⊢
    cases he : p.err with
    | some e => simp [he, failWith] at h
    | none =>
      simp only [he] at h ⊢
      generalize (if q.Sort_.length = 0 then some ""
        else goSliceTo (buildSortQuery.loop q.Sort_ "")
          ((goLen (buildSortQuery.loop q.Sort_ "") : Int) - 1)) = so at h ⊢
      cases so with
      | none => simp at h
      | some sortQuery =>
        simp only [finish_shared _ _ d hd, Option.some.injEq, Ret.mk.injEq, ne_eq,
          not_true_eq_false, if_false, and_true] at h
        simp only [finish_shared _ _ d hd, hne, ne_eq, not_false_eq_true, if_true,
          Option.some.injEq, Ret.mk.injEq, and_true]
        refine ⟨?_, h.2⟩
        rw [← h.1]
        have e : ("  LIMIT " : String) = " " ++ " LIMIT " := by decide
        rw [e]
        simp only [String.append_assoc]

/-- C8. With `Window{Limit:10, Offset:20}` the text of `buildSelectQuery` is the
text of the same query without a window followed by two spaces and
`LIMIT 10 OFFSET 20`: `buildPaginationQuery` starts its fragment with a space
and `buildSelectQuery` puts another space before it. With `Limit` 0 only the
`OFFSET` clause is appended, again after two spaces. -/
theorem buildSelectQuery_window_example :
    buildSelectQuery "t" ⟨[.Equal "a" (.int 1)], [⟨"a", true⟩], none⟩ "sqlite3"
      = some ⟨"SELECT * FROM t WHERE a = ? ORDER BY a DESC", [.int 1], none⟩ ∧
    buildSelectQuery "t"
        ⟨[.Equal "a" (.int 1)], [⟨"a", true⟩], some { Limit := 10, Offset := 20 }⟩ "sqlite3"
      = some ⟨"SELECT * FROM t WHERE a = ? ORDER BY a DESC  LIMIT 10 OFFSET 20",
          [.int 1], none⟩ ∧
    "SELECT * FROM t WHERE a = ? ORDER BY a DESC  LIMIT 10 OFFSET 20"
      ≠ "SELECT * FROM t WHERE a = ? ORDER BY a DESC" ++ " LIMIT 10 OFFSET 20" ∧
    buildSelectQuery "t"
        ⟨[.Equal "a" (.int 1)], [⟨"a", true⟩], some { Limit := 0, Offset := 20 }⟩ "sqlite3"
      = some ⟨"SELECT * FROM t WHERE a = ? ORDER BY a DESC  OFFSET 20", [.int 1], none⟩ :=
  ⟨rfl, rfl, by decide, rfl⟩

/-! ## Update -/

theorem buildUpdateQuery_setLoop_eq (p : List (String × Value)) :
    ∀ (setStr : String) (ps : List Value),
      buildUpdateQuery.setLoop p setStr ps
        = (setStr ++ commaEach ((p.filter fun kv => decide (kv.1 ≠ "id")).map
              fun kv => kv.1 ++ "=?"),
            ps ++ (p.filter fun kv => decide (kv.1 ≠ "id")).map Prod.snd) := by
  induction p with
  | nil => intro setStr ps; simp [buildUpdateQuery.setLoop, commaEach]
  | cons kv p ih =>
    intro setStr ps
    obtain ⟨k, v⟩ := kv
    by_cases hk : k = "id"
    · simp [buildUpdateQuery.setLoop, hk, ih]
    · have e : ("=?," : String) = "=?" ++ "," := by decide
      simp only [buildUpdateQuery.setLoop, hk, ne_eq, not_false_eq_true, if_true, ih,
        decide_True, List.filter_cons_of_pos, List.map_cons, commaEach, List.append_assoc,
        List.singleton_append]
      rw [e]
      simp only [String.append_assoc]

theorem buildUpdateQuery_nullLoop_eq (new p : List (String × Value)) :
    ∀ (setStr : String),
      buildUpdateQuery.nullLoop new p setStr
        = setStr ++ commaEach ((p.filter fun kv => !hasKey new kv.1).map
            fun kv => kv.1 ++ "=NULL") := by
  induction p with
  | nil => intro setStr; simp [buildUpdateQuery.nullLoop, commaEach]
  | cons kv p ih =>
    intro setStr
    obtain ⟨k, v⟩ := kv
    by_cases hk : hasKey new k = true
    · simp [buildUpdateQuery.nullLoop, hk, ih]
    · have hk2 : hasKey new k = false := by simpa using hk
      have e : ("=NULL," : String) = "=NULL" ++ "," := by decide
      simp only [buildUpdateQuery.nullLoop, hk2, if_true, ih, Bool.not_false,
        List.filter_cons_of_pos, List.map_cons, commaEach]
      rw [e]
      simp only [String.append_assoc]

/-- The statement of `buildUpdateQuery` before the dialect transform. -/
theorem buildUpdateQuery_eq_finish (t : String) (i o : Item) (d : String) :
    buildUpdateQuery t i o d
      = finish ("UPDATE " ++ t ++ " SET "
          ++ stringsJoin
              (("etag=?" :: (i.Payload.filter fun kv => decide (kv.1 ≠ "id")).map
                  fun kv => kv.1 ++ "=?")
                ++ (o.Payload.filter fun kv => !hasKey i.Payload kv.1).map
                  fun kv => kv.1 ++ "=NULL") ","
          ++ " WHERE id=? AND etag=?")
          ((.str i.ETag :: (i.Payload.filter fun kv => decide (kv.1 ≠ "id")).map Prod.snd)
            ++ [o.ID, .str o.ETag]) d := by
  have e0 : ("etag=?," : String) = commaEach ["etag=?"] := rfl
  simp only [buildUpdateQuery, buildUpdateQuery_setLoop_eq, buildUpdateQuery_nullLoop_eq]
  rw [e0, ← commaEach_append, ← commaEach_append]
  simp only [List.singleton_append, List.cons_append, goSliceTo_commaEach]
  simp

/-- C4. For every new item, previous item and dialect, `buildUpdateQuery`
returns the dialect transform of a statement whose SET clause is a
comma-separated list that ends with the fragment `k=NULL` for exactly the
fields `k` of the previous payload that are absent from the new payload, in
the order in which the previous payload is visited; the fragments before them
all have the form `k=?` and are as many as the parameters before the last
two, so the `NULL` fragments consume no parameter; the statement ends with
` WHERE id=? AND etag=?`, and the last two parameters are the identifier and
the version tag of the previous item. Under a shared-placeholder dialect that
statement and those parameters are returned as they are, with a nil error. -/
theorem buildUpdateQuery_nulls_dropped_fields (t : String) (i o : Item) (d : String) :
    ∃ (sets : List String) (ps : List Value) (text : String),
      sets.length = ps.length ∧
      (∀ f ∈ sets, ∃ k : String, f = k ++ "=?") ∧
      text = "UPDATE " ++ t ++ " SET "
          ++ stringsJoin
              (sets ++ (o.Payload.filter fun kv => !hasKey i.Payload kv.1).map
                fun kv => kv.1 ++ "=NULL") ","
          ++ " WHERE id=? AND etag=?" ∧
      buildUpdateQuery t i o d = finish text (ps ++ [o.ID, .str o.ETag]) d ∧
      (d ≠ "postgres" →
        buildUpdateQuery t i o d = some ⟨text, ps ++ [o.ID, .str o.ETag], none⟩) := by
  refine ⟨_, _, _, ?_, ?_, rfl, buildUpdateQuery_eq_finish t i o d, ?_⟩
  · simp
  · intro f hf
    rcases List.mem_cons.1 hf with e | e
    · exact ⟨"etag", e⟩
    · obtain ⟨kv, _, hkv⟩ := List.mem_map.1 e
      exact ⟨kv.1, hkv.symm⟩
  · intro h
    rw [buildUpdateQuery_eq_finish, finish_shared _ _ d h]

set_option maxRecDepth 20000 in
theorem buildUpdateQuery_nulls_dropped_fields_witness :
    (∃ (sets : List String) (ps : List Value) (text : String),
      sets.length = ps.length ∧
      (∀ f ∈ sets, ∃ k : String, f = k ++ "=?") ∧
      text = "UPDATE " ++ "users" ++ " SET "
          ++ stringsJoin (sets ++ ["age=NULL"]) "," ++ " WHERE id=? AND etag=?" ∧
      buildUpdateQuery "users" ⟨.int 1, "v2", [("name", .str "b")]⟩
          ⟨.int 1, "v1", [("name", .str "a"), ("age", .int 5)]⟩ "sqlite3"
        = finish text (ps ++ [.int 1, .str "v1"]) "sqlite3" ∧
      ("sqlite3" ≠ "postgres" →
        buildUpdateQuery "users" ⟨.int 1, "v2", [("name", .str "b")]⟩
            ⟨.int 1, "v1", [("name", .str "a"), ("age", .int 5)]⟩ "sqlite3"
          = some ⟨text, ps ++ [.int 1, .str "v1"], none⟩)) ∧
    buildUpdateQuery "users" ⟨.int 1, "v2", [("name", .str "b")]⟩
        ⟨.int 1, "v1", [("name", .str "a"), ("age", .int 5)]⟩ "sqlite3"
      = some ⟨"UPDATE users SET etag=?,name=?,age=NULL WHERE id=? AND etag=?",
          [.str "v2", .str "b", .int 1, .str "v1"], none⟩ ∧
    buildUpdateQuery "users" ⟨.int 1, "v2", [("name", .str "b")]⟩
        ⟨.int 1, "v1", [("name", .str "a"), ("age", .int 5)]⟩ "postgres"
      = some ⟨"UPDATE users SET etag=$1,name=$2,age=NULL WHERE id=$3 AND etag=$4",
          [.str "v2", .str "b", .int 1, .str "v1"], none⟩ :=
  ⟨buildUpdateQuery_nulls_dropped_fields "users" ⟨.int 1, "v2", [("name", .str "b")]⟩
      ⟨.int 1, "v1", [("name", .str "a"), ("age", .int 5)]⟩ "sqlite3",
    rfl, rfl⟩

/-- C5, as stated, fails: a new payload that holds the field `id` gets no
fragment `id=?` in the SET clause, and its value for `id` is not among the
parameters. -/
theorem buildUpdateQuery_skips_id :
    buildUpdateQuery "users" ⟨.int 1, "v2", [("id", .int 99), ("name", .str "b")]⟩
        ⟨.int 1, "v1", [("id", .int 1), ("name", .str "a")]⟩ "sqlite3"
      = some ⟨"UPDATE users SET etag=?,name=? WHERE id=? AND etag=?",
          [.str "v2", .str "b", .int 1, .str "v1"], none⟩ ∧
    ¬ ("id=?".data <:+: "etag=?,name=?".data) ∧
    Value.int 99 ∉ [Value.str "v2", .str "b", .int 1, .str "v1"] :=
  ⟨rfl, by decide, by simp⟩

/-- C5, amended. For every new item, previous item and dialect,
`buildUpdateQuery` returns the dialect transform of a statement whose SET
clause is a comma-separated list that starts with `etag=?`, followed by the
fragment `k=?` for every field `k` of the new payload other than `id`, in the
order in which the payload is visited, and then by fragments of the form
`k=NULL`; the parameter list starts with the version tag of the new item
followed by the values of those fields in the same order, and two more
parameters follow. Under a shared-placeholder dialect that statement and those
parameters are returned as they are, with a nil error. -/
theorem buildUpdateQuery_sets_new_fields (t : String) (i o : Item) (d : String) :
    ∃ (nulls : List String) (last : List Value) (text : String),
      last.length = 2 ∧
      (∀ f ∈ nulls, ∃ k : String, f = k ++ "=NULL") ∧
      text = "UPDATE " ++ t ++ " SET "
          ++ stringsJoin
              (("etag=?" :: (i.Payload.filter fun kv => decide (kv.1 ≠ "id")).map
                  fun kv => kv.1 ++ "=?") ++ nulls) ","
          ++ " WHERE id=? AND etag=?" ∧
      buildUpdateQuery t i o d
        = finish text
            ((.str i.ETag :: (i.Payload.filter fun kv => decide (kv.1 ≠ "id")).map Prod.snd)
              ++ last) d ∧
      (d ≠ "postgres" →
        buildUpdateQuery t i o d
          = some ⟨text,
              (.str i.ETag :: (i.Payload.filter fun kv => decide (kv.1 ≠ "id")).map Prod.snd)
                ++ last, none⟩) := by
  refine ⟨_, _, _, ?_, ?_, rfl, buildUpdateQuery_eq_finish t i o d, ?_⟩
  · rfl
  · intro f hf
    obtain ⟨kv, _, hkv⟩ := List.mem_map.1 hf
    exact ⟨kv.1, hkv.symm⟩
  · intro h
    rw [buildUpdateQuery_eq_finish, finish_shared _ _ d h]

theorem buildUpdateQuery_sets_new_fields_witness :
    (∃ (nulls : List String) (last : List Value) (text : String),
      last.length = 2 ∧
      (∀ f ∈ nulls, ∃ k : String, f = k ++ "=NULL") ∧
      text = "UPDATE " ++ "users" ++ " SET "
          ++ stringsJoin (["etag=?", "name=?"] ++ nulls) "," ++ " WHERE id=? AND etag=?" ∧
      buildUpdateQuery "users" ⟨.int 1, "v2", [("id", .int 99), ("name", .str "b")]⟩
          ⟨.int 1, "v1", [("name", .str "a"), ("age", .int 5)]⟩ "mysql"
        = finish text ([.str "v2", .str "b"] ++ last) "mysql" ∧
      ("mysql" ≠ "postgres" →
        buildUpdateQuery "users" ⟨.int 1, "v2", [("id", .int 99), ("name", .str "b")]⟩
            ⟨.int 1, "v1", [("name", .str "a"), ("age", .int 5)]⟩ "mysql"
          = some ⟨text, [.str "v2", .str "b"] ++ last, none⟩)) ∧
    buildUpdateQuery "users" ⟨.int 1, "v2", [("id", .int 99), ("name", .str "b")]⟩
        ⟨.int 1, "v1", [("name", .str "a"), ("age", .int 5)]⟩ "mysql"
      = some ⟨"UPDATE users SET etag=?,name=?,age=NULL WHERE id=? AND etag=?",
          [.str "v2", .str "b", .int 1, .str "v1"], none⟩ :=
  ⟨buildUpdateQuery_sets_new_fields "users"
      ⟨.int 1, "v2", [("id", .int 99), ("name", .str "b")]⟩
      ⟨.int 1, "v1", [("name", .str "a"), ("age", .int 5)]⟩ "mysql",
    rfl⟩

/-! ## Insert -/

theorem buildInsertQuery_loop_eq (p : List (String × Value)) :
    ∀ st : InsertState,
      buildInsertQuery.loop p st
        = { columnsStr := st.columnsStr
              ++ commaEach ((p.filter fun kv => !isAutoIncrement kv.2).map Prod.fst)
            valuesStr := st.valuesStr
              ++ commaEach (List.replicate (p.filter fun kv => !isAutoIncrement kv.2).length "?")
            sqlParams := st.sqlParams ++ (p.filter fun kv => !isAutoIncrement kv.2).map Prod.snd
            returningColumns := st.returningColumns
              ++ (p.filter fun kv => isAutoIncrement kv.2).map Prod.fst } := by
  induction p with
  | nil => intro st; simp [buildInsertQuery.loop, commaEach]
  | cons kv p ih =>
    intro st
    obtain ⟨k, v⟩ := kv
    have e : ("?," : String) = "?" ++ "," := by decide
    cases v <;>
      simp only [buildInsertQuery.loop, ih, isAutoIncrement, Bool.not_false, Bool.not_true,
        List.filter_cons_of_pos, List.filter_cons_of_neg, List.map_cons, List.length_cons,
        List.replicate_succ, commaEach, List.append_assoc, List.singleton_append,
        List.cons_append, List.nil_append, not_false_eq_true, Bool.false_eq_true] <;>
      (try rw [e]) <;>
      simp only [String.append_assoc]

/-- The statement of `buildInsertQuery` before the dialect transform. -/
theorem buildInsertQuery_eq_finish (t : String) (i : Item) (d : String) :
    buildInsertQuery t i d
      = finish ("INSERT INTO " ++ t ++ " ("
          ++ stringsJoin
              ("etag" :: (i.Payload.filter fun kv => !isAutoIncrement kv.2).map Prod.fst) ","
          ++ ") VALUES ("
          ++ stringsJoin
              (List.replicate ((i.Payload.filter fun kv => !isAutoIncrement kv.2).length + 1)
                "?") ","
          ++ ")"
          ++ (if i.Payload.any (fun kv => isAutoIncrement kv.2) then
                " RETURNING "
                  ++ stringsJoin
                      ((i.Payload.filter fun kv => isAutoIncrement kv.2).map Prod.fst) ","
              else ""))
          (.str i.ETag :: (i.Payload.filter fun kv => !isAutoIncrement kv.2).map Prod.snd)
          d := by
  have e1 : ∀ r : String, ("etag," : String) ++ r = commaEach ["etag"] ++ r := fun _ => rfl
  have e2 : ∀ r : String, ("?," : String) ++ r = commaEach ["?"] ++ r := fun _ => rfl
  have hlen : ((i.Payload.filter fun kv => isAutoIncrement kv.2).map Prod.fst).length > 0
      ↔ i.Payload.any (fun kv => isAutoIncrement kv.2) = true := by
    rw [List.length_map, gt_iff_lt, List.length_pos, List.any_eq_true]
    constructor
    · intro hne
      obtain ⟨x, hx⟩ := List.exists_mem_of_ne_nil _ hne
      exact ⟨x, (List.mem_filter.1 hx).1, (List.mem_filter.1 hx).2⟩
    · rintro ⟨x, hx, hx2⟩ hnil
      have : x ∈ i.Payload.filter fun kv => isAutoIncrement kv.2 := List.mem_filter.2 ⟨hx, hx2⟩
      rw [hnil] at this
      exact absurd this (List.not_mem_nil _)
  simp only [buildInsertQuery, buildInsertQuery_loop_eq, List.nil_append, e1, e2,
    ← commaEach_append, List.singleton_append, goSliceTo_commaEach, ← List.replicate_succ,
    hlen, String.empty_append]
  have hv : ∀ n : Nat,
      goSliceTo (commaEach (List.replicate (n + 1) "?"))
          ((goLen (commaEach (List.replicate (n + 1) "?")) : Int) - 1)
        = some (stringsJoin (List.replicate (n + 1) "?") ",") := fun n => by
    rw [List.replicate_succ]; exact goSliceTo_commaEach _ _
  rw [hv]

/-- The statement of `buildInsertQuery` under a shared-placeholder dialect. -/
theorem buildInsertQuery_shared (t : String) (i : Item) (d : String) (h : d ≠ "postgres") :
    buildInsertQuery t i d
      = some ⟨"INSERT INTO " ++ t ++ " ("
          ++ stringsJoin
              ("etag" :: (i.Payload.filter fun kv => !isAutoIncrement kv.2).map Prod.fst) ","
          ++ ") VALUES ("
          ++ stringsJoin
              (List.replicate ((i.Payload.filter fun kv => !isAutoIncrement kv.2).length + 1)
                "?") ","
          ++ ")"
          ++ (if i.Payload.any (fun kv => isAutoIncrement kv.2) then
                " RETURNING "
                  ++ stringsJoin
                      ((i.Payload.filter fun kv => isAutoIncrement kv.2).map Prod.fst) ","
              else ""),
          .str i.ETag :: (i.Payload.filter fun kv => !isAutoIncrement kv.2).map Prod.snd,
          none⟩ := by
  rw [buildInsertQuery_eq_finish, finish_shared _ _ d h]

/-- C6. For an item whose payload holds no auto-increment marker,
`buildInsertQuery` under a shared-placeholder dialect returns
`INSERT INTO <table> (etag,c1,...,cn) VALUES (?,...,?)` with n+1 placeholders
and the parameters `[etag, v1, ..., vn]`, where `(c1,v1), ..., (cn,vn)` are the
entries of the payload in the order in which it is visited, each once. -/
theorem buildInsertQuery_plain (t : String) (i : Item) (d : String) (h : d ≠ "postgres")
    (hp : ∀ kv ∈ i.Payload, isAutoIncrement kv.2 = false) :
    buildInsertQuery t i d
      = some ⟨"INSERT INTO " ++ t ++ " ("
          ++ stringsJoin ("etag" :: i.Payload.map Prod.fst) ","
          ++ ") VALUES ("
          ++ stringsJoin (List.replicate (i.Payload.length + 1) "?") ","
          ++ ")",
          .str i.ETag :: i.Payload.map Prod.snd, none⟩ := by
  have hkeep : (i.Payload.filter fun kv => !isAutoIncrement kv.2) = i.Payload := by
    apply List.filter_eq_self.2
    intro kv hkv
    simp [hp kv hkv]
  have hany : i.Payload.any (fun kv => isAutoIncrement kv.2) = false := by
    apply Bool.eq_false_iff.2
    intro hc
    obtain ⟨kv, hkv, hk⟩ := List.any_eq_true.1 hc
    rw [hp kv hkv] at hk
    exact Bool.false_ne_true hk
  rw [buildInsertQuery_shared t i d h, hkeep, hany]
  simp

theorem buildInsertQuery_plain_witness :
    buildInsertQuery "users" ⟨.int 1, "v1", [("name", .str "a"), ("age", .int 5)]⟩ "sqlite3"
      = some ⟨"INSERT INTO users (etag,name,age) VALUES (?,?,?)",
          [.str "v1", .str "a", .int 5], none⟩ ∧
    buildInsertQuery "users" ⟨.int 1, "v1", [("age", .int 5), ("name", .str "a")]⟩ "sqlite3"
      = some ⟨"INSERT INTO users (etag,age,name) VALUES (?,?,?)",
          [.str "v1", .int 5, .str "a"], none⟩ :=
  ⟨buildInsertQuery_plain "users" ⟨.int 1, "v1", [("name", .str "a"), ("age", .int 5)]⟩
      "sqlite3" (by decide) (by decide),
   buildInsertQuery_plain "users" ⟨.int 1, "v1", [("age", .int 5), ("name", .str "a")]⟩
      "sqlite3" (by decide) (by decide)⟩

/-- C7. For every item and dialect, `buildInsertQuery` returns the dialect
transform of a statement in which the payload fields whose value is the
`AutoIncrementingInteger` marker are left out of the column list, of the
`VALUES` placeholders and of the parameters, which hold the other fields in
the order visited; the names of the marker fields, joined by commas, follow in
a trailing ` RETURNING ` clause, which is present exactly when some payload
value is the marker. Under a shared-placeholder dialect that statement and
those parameters are returned as they are, with a nil error. -/
theorem buildInsertQuery_returning (t : String) (i : Item) (d : String) :
    ∃ (text : String) (ps : List Value),
      text = "INSERT INTO " ++ t ++ " ("
          ++ stringsJoin
              ("etag" :: (i.Payload.filter fun kv => !isAutoIncrement kv.2).map Prod.fst) ","
          ++ ") VALUES ("
          ++ stringsJoin
              (List.replicate ((i.Payload.filter fun kv => !isAutoIncrement kv.2).length + 1)
                "?") ","
          ++ ")"
          ++ (if i.Payload.any (fun kv => isAutoIncrement kv.2) then
                " RETURNING "
                  ++ stringsJoin
                      ((i.Payload.filter fun kv => isAutoIncrement kv.2).map Prod.fst) ","
              else "") ∧
      ps = .str i.ETag :: (i.Payload.filter fun kv => !isAutoIncrement kv.2).map Prod.snd ∧
      buildInsertQuery t i d = finish text ps d ∧
      (d ≠ "postgres" → buildInsertQuery t i d = some ⟨text, ps, none⟩) :=
  ⟨_, _, rfl, rfl, buildInsertQuery_eq_finish t i d, buildInsertQuery_shared t i d⟩

theorem buildInsertQuery_returning_witness :
    buildInsertQuery "users"
        ⟨.int 1, "v1", [("id", .autoIncrement), ("name", .str "a"), ("seq", .autoIncrement)]⟩
        "sqlite3"
      = some ⟨"INSERT INTO users (etag,name) VALUES (?,?) RETURNING id,seq",
          [.str "v1", .str "a"], none⟩ ∧
    buildInsertQuery "users"
        ⟨.int 1, "v1", [("id", .autoIncrement), ("name", .str "a"), ("seq", .autoIncrement)]⟩
        "postgres"
      = some ⟨"INSERT INTO users (etag,name) VALUES ($1,$2) RETURNING id,seq",
          [.str "v1", .str "a"], none⟩ ∧
    buildInsertQuery "users" ⟨.int 1, "v1", [("name", .str "a")]⟩ "sqlite3"
      = some ⟨"INSERT INTO users (etag,name) VALUES (?,?)", [.str "v1", .str "a"], none⟩ := by
  obtain ⟨text, ps, ht, hps, _, h⟩ := buildInsertQuery_returning "users"
    ⟨.int 1, "v1", [("id", .autoIncrement), ("name", .str "a"), ("seq", .autoIncrement)]⟩
    "sqlite3"
  refine ⟨?_, rfl, rfl⟩
  rw [h (by decide), ht, hps]
  rfl

/-! ## Create table -/

theorem buildSchemaQuery_loop_failed (fmt : Fmt) (fields : List (String × Field)) :
    ∀ sqlQuery : String, (∃ kv ∈ fields, checkType fmt kv.2.Validator = "") →
      buildSchemaQuery.loop fmt fields sqlQuery = .failed .ErrNotImplemented := by
  induction fields with
  | nil => intro _ h; obtain ⟨kv, hkv, _⟩ := h; exact absurd hkv (List.not_mem_nil _)
  | cons f fields ih =>
    intro sqlQuery h
    obtain ⟨fieldName, field⟩ := f
    by_cases h0 : goLen (checkType fmt field.Validator) = 0
    · simp [buildSchemaQuery.loop, h0]
    · have htail : ∃ kv ∈ fields, checkType fmt kv.2.Validator = "" := by
        obtain ⟨kv, hkv, hk⟩ := h
        rcases List.mem_cons.1 hkv with e | e
        · subst e
          exact absurd (by rw [hk]; rfl) h0
        · exact ⟨kv, e, hk⟩
      simp only [buildSchemaQuery.loop, h0, if_false]
      split
      · split
        · exact ih _ htail
        · exact ih _ htail
      · exact ih _ htail

/-- C10. For every schema that holds a field whose validator kind is none of
String, Integer, Float, Bool, Time, URL, Password, Reference and the Table
marker, for every dialect, every table name and every order in which the
fields are visited, `buildCreateQuery` returns the error
`ErrNotImplemented` with an empty text and an empty parameter list. -/
theorem buildCreateQuery_unrecognised (fmt : Fmt) (t : String) (s : Schema) (d : String)
    (h : ∃ kv ∈ s.Fields, kv.2.Validator = .Unrecognised) :
    buildCreateQuery fmt t s d = some ⟨"", [], some .ErrNotImplemented⟩ := by
  have h2 : ∃ kv ∈ s.Fields, checkType fmt kv.2.Validator = "" := by
    obtain ⟨kv, hkv, hk⟩ := h
    exact ⟨kv, hkv, by rw [hk]; rfl⟩
  simp [buildCreateQuery, buildSchemaQuery, buildSchemaQuery_loop_failed fmt s.Fields _ h2,
    failWith]

theorem buildCreateQuery_unrecognised_witness :
    buildCreateQuery ⟨fun format _ => format, fun _ => ""⟩ "users"
        ⟨[("name", .mk (.String 10) .nil), ("blob", .mk .Unrecognised .nil),
          ("age", .mk .Integer .nil)]⟩ "postgres"
      = some ⟨"", [], some .ErrNotImplemented⟩ :=
  buildCreateQuery_unrecognised ⟨fun format _ => format, fun _ => ""⟩ "users"
    ⟨[("name", .mk (.String 10) .nil), ("blob", .mk .Unrecognised .nil),
      ("age", .mk .Integer .nil)]⟩ "postgres"
    ⟨("blob", .mk .Unrecognised .nil), by simp, rfl⟩

/-! ## The predicate translator -/

theorem joinerEach_eq_join (j x : String) (xs : List String) :
    joinerEach j (x :: xs) = stringsJoin (x :: xs) j ++ j := by
  induction xs generalizing x with
  | nil => simp [joinerEach, stringsJoin]
  | cons y ys ih => rw [joinerEach, ih y]; simp [stringsJoin, String.append_assoc]

theorem goSliceTo_joinerEach (j : String) (n : Nat) (hn : goLen j = n) (x : String)
    (xs : List String) :
    goSliceTo (joinerEach j (x :: xs)) ((goLen (joinerEach j (x :: xs)) : Int) - n)
      = some (stringsJoin (x :: xs) j) := by
  rw [joinerEach_eq_join]
  exact goSliceTo_append _ j n hn

mutual
/-- On a tree of supported nodes without empty `And`/`Or`, one pass of the type
switch appends the text of the node and the values of its leaves. -/
theorem translateNode_regular : ∀ (e : Expression),
    e.every nodeSupported = true → e.every nodeNonEmpty = true →
    ∀ (q : String) (ps : List Value),
      translateNode e q ps = some ⟨q ++ renderNode e, ps ++ leafValues e, none⟩
  | .And subs, hs, hn, q, ps => by
    simp only [Expression.every, Bool.and_eq_true] at hs hn
    have h := translateSubs_regular " AND " subs hs.2 hn.2 "" ps
    cases subs with
    | nil => simp [nodeNonEmpty] at hn
    | cons x xs =>
      have hcut := goSliceTo_joinerEach " AND " 5 rfl (renderNode x) (renderAll xs)
      simp only [Nat.cast_ofNat] at hcut
      simp only [translateNode, h, renderAll, String.empty_append, hcut, renderNode,
        leafValues]
  | .Or subs, hs, hn, q, ps => by
    simp only [Expression.every, Bool.and_eq_true] at hs hn
    have h := translateSubs_regular " OR " subs hs.2 hn.2 "" ps
    cases subs with
    | nil => simp [nodeNonEmpty] at hn
    | cons x xs =>
      have hcut := goSliceTo_joinerEach " OR " 4 rfl (renderNode x) (renderAll xs)
      simp only [Nat.cast_ofNat] at hcut
      simp only [translateNode, h, renderAll, String.empty_append, hcut, renderNode,
        leafValues]
  | .In f vs, _, _, q, ps => by simp [translateNode, renderNode, leafValues]
  | .NotIn f vs, _, _, q, ps => by simp [translateNode, renderNode, leafValues]
  | .Equal f v, _, _, q, ps => by
    cases v <;> simp [translateNode, renderNode, leafValues, equalOp]
  | .NotEqual f v, _, _, q, ps => by
    cases v <;> simp [translateNode, renderNode, leafValues, notEqualOp]
  | .GreaterThan f v, _, _, q, ps => by simp [translateNode, renderNode, leafValues]
  | .GreaterOrEqual f v, _, _, q, ps => by simp [translateNode, renderNode, leafValues]
  | .LowerThan f v, _, _, q, ps => by simp [translateNode, renderNode, leafValues]
  | .LowerOrEqual f v, _, _, q, ps => by simp [translateNode, renderNode, leafValues]
  | .Unsupported, hs, _, _, _ => by simp [Expression.every, nodeSupported] at hs
/-- The inner loop of the `And` and `Or` cases on such trees. -/
theorem translateSubs_regular : ∀ (j : String) (es : List Expression),
    everyAll nodeSupported es = true → everyAll nodeNonEmpty es = true →
    ∀ (s : String) (ps : List Value),
      translateSubs j es s ps
        = some (.done (s ++ joinerEach j (renderAll es)) (ps ++ leafValuesAll es))
  | j, [], _, _, s, ps => by simp [translateSubs, renderAll, joinerEach, leafValuesAll]
  | j, e :: es, hs, hn, s, ps => by
    simp only [everyAll, Bool.and_eq_true] at hs hn
    have h1 := translateNode_regular e hs.1 hn.1 "" []
    have h2 := translateSubs_regular j es hs.2 hn.2
    simp only [translateSubs, h1, h2, renderAll, joinerEach, leafValuesAll]
    simp [String.append_assoc]
end

theorem stringsJoin_cons (j x : String) (xs : List String) :
    stringsJoin (x :: xs) j = x ++ prefixEach j xs := by
  induction xs generalizing x with
  | nil => simp [stringsJoin, prefixEach]
  | cons y ys ih => rw [stringsJoin, ih y]; simp [prefixEach, String.append_assoc]

/-- The loop of `translatePredicate` after its first pass, on regular trees. -/
theorem translatePredicate_loop_regular (es : List Expression) :
    everyAll nodeSupported es = true → everyAll nodeNonEmpty es = true →
    ∀ (i : Nat) (q : String) (ps : List Value), 0 < i →
      translatePredicate.loop es i q ps
        = some ⟨q ++ prefixEach " AND " (renderAll es), ps ++ leafValuesAll es, none⟩ := by
  induction es with
  | nil =>
    intro _ _ i q ps _
    simp [translatePredicate.loop, renderAll, prefixEach, leafValuesAll]
  | cons e es ih =>
    intro hs hn i q ps hi
    simp only [everyAll, Bool.and_eq_true] at hs hn
    simp only [translatePredicate.loop, hi, if_true, translateNode_regular e hs.1 hn.1,
      ih hs.2 hn.2 (i + 1) _ _ (Nat.succ_pos i), renderAll, prefixEach, leafValuesAll]
    simp [String.append_assoc]

/-- The translation of a regular predicate: the texts of its nodes joined by
` AND `, and the values of its leaves in traversal order. -/
theorem translatePredicate_regular (P : Predicate)
    (hs : everyAll nodeSupported P = true) (hn : everyAll nodeNonEmpty P = true) :
    translatePredicate P = some ⟨stringsJoin (renderAll P) " AND ", leafValuesAll P, none⟩ := by
  cases P with
  | nil => rfl
  | cons e es =>
    simp only [everyAll, Bool.and_eq_true] at hs hn
    simp only [translatePredicate, translatePredicate.loop, Nat.lt_irrefl, if_false,
      translateNode_regular e hs.1 hn.1,
      translatePredicate_loop_regular es hs.2 hn.2 (0 + 1) _ _ (Nat.succ_pos 0), renderAll,
      stringsJoin_cons, leafValuesAll]
    simp

theorem countQ_prefixEach (j : String) (hj : countQ j = 0) (xs : List String) :
    countQ (prefixEach j xs) = (xs.map countQ).sum := by
  induction xs with
  | nil => rfl
  | cons x xs ih => simp [prefixEach, countQ_append, hj, ih]

theorem countQ_stringsJoin (j : String) (hj : countQ j = 0) (xs : List String) :
    countQ (stringsJoin xs j) = (xs.map countQ).sum := by
  cases xs with
  | nil => rfl
  | cons x xs => rw [stringsJoin_cons, countQ_append, countQ_prefixEach j hj]; simp

mutual
/-- With field names free of `?`, the text of a node holds one `?` per leaf. -/
theorem countQ_renderNode : ∀ (e : Expression), e.every nodeFieldClean = true →
    countQ (renderNode e) = (leafValues e).length
  | .And subs, hc => by
    simp only [Expression.every, Bool.and_eq_true] at hc
    have h := countQ_renderAll subs hc.2
    have e1 : countQ "(" = 0 := by decide
    have e2 : countQ ")" = 0 := by decide
    simp only [renderNode, leafValues, countQ_append,
      countQ_stringsJoin " AND " (by decide), h, e1, e2]
    omega
  | .Or subs, hc => by
    simp only [Expression.every, Bool.and_eq_true] at hc
    have h := countQ_renderAll subs hc.2
    have e1 : countQ "(" = 0 := by decide
    have e2 : countQ ")" = 0 := by decide
    simp only [renderNode, leafValues, countQ_append,
      countQ_stringsJoin " OR " (by decide), h, e1, e2]
    omega
  | .In f vs, hc => by
    have e1 : countQ " IN (?)" = 1 := by decide
    simp only [Expression.every, nodeFieldClean, beq_iff_eq] at hc
    simp [renderNode, leafValues, countQ_append, hc, e1]
  | .NotIn f vs, hc => by
    have e1 : countQ " NOT IN (?)" = 1 := by decide
    simp only [Expression.every, nodeFieldClean, beq_iff_eq] at hc
    simp [renderNode, leafValues, countQ_append, hc, e1]
  | .Equal f v, hc => by
    have e1 : countQ (equalOp v) = 1 := by cases v <;> rfl
    simp only [Expression.every, nodeFieldClean, beq_iff_eq] at hc
    simp [renderNode, leafValues, countQ_append, hc, e1]
  | .NotEqual f v, hc => by
    have e1 : countQ (notEqualOp v) = 1 := by cases v <;> rfl
    simp only [Expression.every, nodeFieldClean, beq_iff_eq] at hc
    simp [renderNode, leafValues, countQ_append, hc, e1]
  | .GreaterThan f v, hc => by
    have e1 : countQ " > ?" = 1 := by decide
    simp only [Expression.every, nodeFieldClean, beq_iff_eq] at hc
    simp [renderNode, leafValues, countQ_append, hc, e1]
  | .GreaterOrEqual f v, hc => by
    have e1 : countQ " >= ?" = 1 := by decide
    simp only [Expression.every, nodeFieldClean, beq_iff_eq] at hc
    simp [renderNode, leafValues, countQ_append, hc, e1]
  | .LowerThan f v, hc => by
    have e1 : countQ " < ?" = 1 := by decide
    simp only [Expression.every, nodeFieldClean, beq_iff_eq] at hc
    simp [renderNode, leafValues, countQ_append, hc, e1]
  | .LowerOrEqual f v, hc => by
    have e1 : countQ " <= ?" = 1 := by decide
    simp only [Expression.every, nodeFieldClean, beq_iff_eq] at hc
    simp [renderNode, leafValues, countQ_append, hc, e1]
  | .Unsupported, _ => by simp [renderNode, leafValues, countQ]
/-- The same for a sequence of nodes. -/
theorem countQ_renderAll : ∀ (es : List Expression), everyAll nodeFieldClean es = true →
    ((renderAll es).map countQ).sum = (leafValuesAll es).length
  | [], _ => by simp [renderAll, leafValuesAll]
  | e :: es, hc => by
    simp only [everyAll, Bool.and_eq_true] at hc
    simp [renderAll, leafValuesAll, countQ_renderNode e hc.1, countQ_renderAll es hc.2]
end

/-! ## Position of the placeholders -/

/-- The loop of `transformQuery_postgres` over a text cut in two: the second
part is numbered from the index that follows the `?` of the first part. -/
theorem transformQuery_postgres_loop_append (xs ys : List Char) :
    ∀ idx : Nat,
      transformQuery_postgres.loop (xs ++ ys) idx ""
        = transformQuery_postgres.loop xs idx ""
          ++ transformQuery_postgres.loop ys (idx + xs.count '?') "" := by
  induction xs with
  | nil => intro idx; simp [transformQuery_postgres.loop]
  | cons c xs ih =>
    intro idx
    by_cases hc : c = '?'
    · subst hc
      have e : idx + 1 + xs.count '?' = idx + (xs.count '?' + 1) := by omega
      rw [List.cons_append, transformQuery_postgres_loop_mark, transformQuery_postgres_loop_mark,
        ih (idx + 1), List.count_cons_self, e]
      simp only [String.append_assoc]
    · have hcount : (c :: xs).count '?' = xs.count '?' := by
        rw [List.count_cons_of_ne]; exact fun e => hc e.symm
      rw [List.cons_append]
      simp only [transformQuery_postgres.loop, hc, if_false]
      rw [transformQuery_postgres_loop_acc, transformQuery_postgres_loop_acc xs, ih idx, hcount]
      simp only [String.append_assoc]

/-- The numbering of a text from the index `k`. -/
theorem numberFrom_append (a b : String) (k : Nat) :
    transformQuery_postgres.loop (a ++ b).data k ""
      = transformQuery_postgres.loop a.data k ""
        ++ transformQuery_postgres.loop b.data (k + countQ a) "" :=
  transformQuery_postgres_loop_append a.data b.data k

theorem numberFrom_plain (a : String) (k : Nat) (h : countQ a = 0) :
    transformQuery_postgres.loop a.data k "" = a := by
  have h2 : '?' ∉ a.data := List.count_eq_zero.1 h
  have := transformQuery_postgres_loop_plain a.data h2 [] k
  simpa [transformQuery_postgres.loop] using this

theorem numberFrom_placeholder (k : Nat) :
    transformQuery_postgres.loop "?".data k "" = marker k := by
  have := transformQuery_postgres_loop_mark [] k
  simp only [marker]
  rw [this]
  simp [transformQuery_postgres.loop]

/-- A text that ends with its only placeholder. -/
theorem numberFrom_op (op : String) (k : Nat) (h : countQ op = 0) :
    transformQuery_postgres.loop (op ++ "?").data k "" = op ++ marker k := by
  rw [numberFrom_append, numberFrom_plain op k h, numberFrom_placeholder, h, Nat.add_zero]

theorem numberFrom_leaf (f op : String) (k : Nat) (hf : countQ f = 0) (hop : countQ op = 0) :
    transformQuery_postgres.loop (f ++ (op ++ "?")).data k "" = f ++ (op ++ marker k) := by
  rw [numberFrom_append, numberFrom_plain f k hf, hf, Nat.add_zero, numberFrom_op op k hop]

theorem numberFrom_leaf_in (f op : String) (k : Nat) (hf : countQ f = 0) (hop : countQ op = 0) :
    transformQuery_postgres.loop (f ++ ((op ++ "?") ++ ")")).data k ""
      = f ++ (op ++ marker k ++ ")") := by
  have e : countQ ")" = 0 := by decide
  rw [numberFrom_append, numberFrom_plain f k hf, hf, Nat.add_zero, numberFrom_append,
    numberFrom_op op k hop, numberFrom_plain ")" _ e]

theorem numberFrom_equalOp (f : String) (v : Value) (k : Nat) (hf : countQ f = 0) :
    transformQuery_postgres.loop (f ++ equalOp v).data k "" = f ++ equalOpNumbered k v := by
  cases v with
  | str s => exact numberFrom_leaf f " LIKE " k hf (by decide)
  | int n => exact numberFrom_leaf f " = " k hf (by decide)
  | nil => exact numberFrom_leaf f " IS " k hf (by decide)
  | bool b => exact numberFrom_leaf f " IS " k hf (by decide)
  | scalar a b => exact numberFrom_leaf f " IS " k hf (by decide)
  | slice vs => exact numberFrom_leaf f " IS " k hf (by decide)
  | autoIncrement => exact numberFrom_leaf f " IS " k hf (by decide)
  | pqArray w => exact numberFrom_leaf f " IS " k hf (by decide)

theorem numberFrom_notEqualOp (f : String) (v : Value) (k : Nat) (hf : countQ f = 0) :
    transformQuery_postgres.loop (f ++ notEqualOp v).data k "" = f ++ notEqualOpNumbered k v := by
  cases v with
  | str s => exact numberFrom_leaf f " NOT LIKE " k hf (by decide)
  | int n => exact numberFrom_leaf f " IS NOT " k hf (by decide)
  | nil => exact numberFrom_leaf f " IS NOT " k hf (by decide)
  | bool b => exact numberFrom_leaf f " IS NOT " k hf (by decide)
  | scalar a b => exact numberFrom_leaf f " IS NOT " k hf (by decide)
  | slice vs => exact numberFrom_leaf f " IS NOT " k hf (by decide)
  | autoIncrement => exact numberFrom_leaf f " IS NOT " k hf (by decide)
  | pqArray w => exact numberFrom_leaf f " IS NOT " k hf (by decide)

theorem numberFrom_parens (s t : String) (k : Nat)
    (h : transformQuery_postgres.loop s.data k "" = t) :
    transformQuery_postgres.loop ("(" ++ s ++ ")").data k "" = "(" ++ t ++ ")" := by
  have e1 : countQ "(" = 0 := by decide
  have e2 : countQ ")" = 0 := by decide
  rw [numberFrom_append, numberFrom_append, numberFrom_plain "(" k e1, e1, Nat.add_zero, h,
    numberFrom_plain ")" _ e2]

mutual
/-- With field names free of `?`, numbering the placeholders of the text of a
node from `k` gives each leaf the marker of the position of its value. -/
theorem numberFrom_renderNode : ∀ (e : Expression), e.every nodeFieldClean = true →
    ∀ k : Nat, transformQuery_postgres.loop (renderNode e).data k "" = renderNumbered e k
  | .And subs, hc, k => by
    simp only [Expression.every, Bool.and_eq_true] at hc
    simp only [renderNode, renderNumbered]
    exact numberFrom_parens _ _ k (numberFrom_join " AND " (by decide) subs hc.2 k)
  | .Or subs, hc, k => by
    simp only [Expression.every, Bool.and_eq_true] at hc
    simp only [renderNode, renderNumbered]
    exact numberFrom_parens _ _ k (numberFrom_join " OR " (by decide) subs hc.2 k)
  | .In f vs, hc, k => by
    simp only [Expression.every, nodeFieldClean, beq_iff_eq] at hc
    exact numberFrom_leaf_in f " IN (" k hc (by decide)
  | .NotIn f vs, hc, k => by
    simp only [Expression.every, nodeFieldClean, beq_iff_eq] at hc
    exact numberFrom_leaf_in f " NOT IN (" k hc (by decide)
  | .Equal f v, hc, k => by
    simp only [Expression.every, nodeFieldClean, beq_iff_eq] at hc
    exact numberFrom_equalOp f v k hc
  | .NotEqual f v, hc, k => by
    simp only [Expression.every, nodeFieldClean, beq_iff_eq] at hc
    exact numberFrom_notEqualOp f v k hc
  | .GreaterThan f v, hc, k => by
    simp only [Expression.every, nodeFieldClean, beq_iff_eq] at hc
    exact numberFrom_leaf f " > " k hc (by decide)
  | .GreaterOrEqual f v, hc, k => by
    simp only [Expression.every, nodeFieldClean, beq_iff_eq] at hc
    exact numberFrom_leaf f " >= " k hc (by decide)
  | .LowerThan f v, hc, k => by
    simp only [Expression.every, nodeFieldClean, beq_iff_eq] at hc
    exact numberFrom_leaf f " < " k hc (by decide)
  | .LowerOrEqual f v, hc, k => by
    simp only [Expression.every, nodeFieldClean, beq_iff_eq] at hc
    exact numberFrom_leaf f " <= " k hc (by decide)
  | .Unsupported, _, _ => rfl
/-- The same for the texts of a sequence of nodes, each preceded by a joiner
without `?`. -/
theorem numberFrom_prefixEach : ∀ (j : String), countQ j = 0 → ∀ (es : List Expression),
    everyAll nodeFieldClean es = true →
    ∀ k : Nat,
      transformQuery_postgres.loop (prefixEach j (renderAll es)).data k ""
        = prefixEach j (renderNumberedAll es k)
  | _, _, [], _, _ => rfl
  | j, hj, e :: es, hc, k => by
    simp only [everyAll, Bool.and_eq_true] at hc
    simp only [renderAll, renderNumberedAll, prefixEach]
    rw [numberFrom_append, numberFrom_append, numberFrom_plain j k hj, hj, Nat.add_zero,
      numberFrom_renderNode e hc.1 k, countQ_append, hj, Nat.zero_add,
      countQ_renderNode e hc.1, numberFrom_prefixEach j hj es hc.2]
/-- The same for the texts of a sequence of nodes joined by a joiner without
`?`. -/
theorem numberFrom_join : ∀ (j : String), countQ j = 0 → ∀ (es : List Expression),
    everyAll nodeFieldClean es = true →
    ∀ k : Nat,
      transformQuery_postgres.loop (stringsJoin (renderAll es) j).data k ""
        = stringsJoin (renderNumberedAll es k) j
  | _, _, [], _, _ => rfl
  | j, hj, e :: es, hc, k => by
    simp only [everyAll, Bool.and_eq_true] at hc
    simp only [renderAll, renderNumberedAll, stringsJoin_cons]
    rw [numberFrom_append, numberFrom_renderNode e hc.1 k, countQ_renderNode e hc.1,
      numberFrom_prefixEach j hj es hc.2]
end

/-- C1, as stated, fails: a field name may hold a `?`, and then the text has
more `?` characters than there are parameters. Besides, an `And` node that
wraps no sub-expression makes the translation abort, so that no text and no
parameter list are returned. -/
theorem translatePredicate_field_with_placeholder :
    (translatePredicate [.Equal "a?" (.int 1)] = some ⟨"a? = ?", [.int 1], none⟩ ∧
      countQ "a? = ?" = 2 ∧ [Value.int 1].length = 1) ∧
    translatePredicate [.Equal "a" (.int 1), .And []] = none :=
  ⟨⟨rfl, by decide, rfl⟩, rfl⟩

/-- C1, amended. For every predicate built only from the supported node kinds,
whose field names hold no `?` and whose `And` and `Or` nodes all wrap at least
one sub-expression, `translatePredicate` returns without error the texts of
its nodes, in order, joined by ` AND `, and the values of the leaves in
left-to-right traversal order as parameters; the number of `?` characters of
the text is the number of parameters, and the k-th `?` from the left is the
placeholder of the leaf whose value is the k-th parameter: numbering the `?`
from the left, as the positional dialect does, gives every leaf the marker of
the position of its value. -/
theorem translatePredicate_placeholders_match_params (P : Predicate)
    (hs : everyAll nodeSupported P = true) (hn : everyAll nodeNonEmpty P = true)
    (hc : everyAll nodeFieldClean P = true) :
    translatePredicate P
      = some ⟨stringsJoin (renderAll P) " AND ", leafValuesAll P, none⟩ ∧
    countQ (stringsJoin (renderAll P) " AND ") = (leafValuesAll P).length ∧
    transformQuery (stringsJoin (renderAll P) " AND ") "postgres"
      = stringsJoin (renderNumberedAll P 1) " AND " := by
  refine ⟨translatePredicate_regular P hs hn, ?_, ?_⟩
  · rw [countQ_stringsJoin " AND " (by decide), countQ_renderAll P hc]
  · rw [transformQuery_postgres_eq, transformQuery_postgres]
    exact numberFrom_join " AND " (by decide) P hc 1

set_option maxRecDepth 20000 in
theorem translatePredicate_placeholders_match_params_witness :
    translatePredicate
        [.Equal "name" (.str "a%"),
         .Or [.In "age" [.int 1, .int 2], .And [.LowerThan "n" (.int 3)], .NotEqual "x" .nil]]
      = some ⟨"name LIKE ? AND (age IN (?) OR (n < ?) OR x IS NOT ?)",
          [.str "a%", .slice [.int 1, .int 2], .int 3, .nil], none⟩ ∧
    countQ "name LIKE ? AND (age IN (?) OR (n < ?) OR x IS NOT ?)" = 4 ∧
    transformQuery "name LIKE ? AND (age IN (?) OR (n < ?) OR x IS NOT ?)" "postgres"
      = "name LIKE $1 AND (age IN ($2) OR (n < $3) OR x IS NOT $4)" :=
  translatePredicate_placeholders_match_params
    [.Equal "name" (.str "a%"),
     .Or [.In "age" [.int 1, .int 2], .And [.LowerThan "n" (.int 3)], .NotEqual "x" .nil]]
    (by decide) (by decide) (by decide)

/-! ## Column types and schema compilation -/

theorem eq_empty_of_goLen_zero (s : String) (h : goLen s = 0) : s = "" := by
  apply String.ext
  exact String.utf8Len_eq_zero.1 h

/-- The loop of `buildSchemaQuery` runs to its end, on a text that still ends
with a comma, when no field has an empty column type. -/
theorem buildSchemaQuery_loop_done (fmt : Fmt) (fields : List (String × Field)) :
    (∀ kv ∈ fields, checkType fmt kv.2.Validator ≠ "") →
    ∀ q : String, ∃ q' : String, buildSchemaQuery.loop fmt fields (q ++ ",") = .done (q' ++ ",") := by
  induction fields with
  | nil => intro _ q; exact ⟨q, rfl⟩
  | cons f fields ih =>
    intro h q
    obtain ⟨fieldName, field⟩ := f
    have h0 : goLen (checkType fmt field.Validator) ≠ 0 := fun e =>
      h (fieldName, field) (by simp) (eq_empty_of_goLen_zero _ e)
    have ht : ∀ kv ∈ fields, checkType fmt kv.2.Validator ≠ "" := fun kv hkv =>
      h kv (by simp [hkv])
    simp only [buildSchemaQuery.loop, h0, if_false]
    split
    · split
      · exact ih ht _
      · exact ih ht _
    · exact ih ht q

/-- Schema compilation succeeds when no field has an empty column type. -/
theorem buildSchemaQuery_ok (fmt : Fmt) (s : Schema)
    (h : ∀ kv ∈ s.Fields, checkType fmt kv.2.Validator ≠ "") :
    ∃ text : String, buildSchemaQuery fmt s = some ⟨text, [], none⟩ := by
  obtain ⟨q', hq⟩ := buildSchemaQuery_loop_done fmt s.Fields h "etag VARCHAR(512)"
  have e : ("etag VARCHAR(512)," : String) = "etag VARCHAR(512)" ++ "," := by decide
  have hcut := goSliceTo_append q' "," 1 rfl
  simp only [Nat.cast_one] at hcut
  refine ⟨q', ?_⟩
  simp only [buildSchemaQuery, e, hq, hcut]

/-- C19. For a string validator with declared maximum length `m`, `checkType`
returns `%s LONGTEXT` when `m > 200`, `%s VARCHAR(m)` with `m` in decimal when
`1 <= m <= 200`, and `%s VARCHAR(10000)` when `m <= 0`; the result is never
empty, and a schema whose fields are string fields, or fields with a non-empty
column type, compiles without error. -/
theorem checkType_string (fmt : Fmt) (m : Int) :
    (200 < m → checkType fmt (.String m) = "%s LONGTEXT") ∧
    (1 ≤ m → m ≤ 200 → checkType fmt (.String m) = "%s VARCHAR(" ++ fmtInt m ++ ")") ∧
    (m ≤ 0 → checkType fmt (.String m) = "%s VARCHAR(10000)") ∧
    checkType fmt (.String m) ≠ "" ∧
    (∀ s : Schema,
      (∀ kv ∈ s.Fields,
        (∃ n : Int, kv.2.Validator = .String n) ∨ checkType fmt kv.2.Validator ≠ "") →
      ∃ text : String, buildSchemaQuery fmt s = some ⟨text, [], none⟩) := by
  have hne : ∀ n : Int, checkType fmt (.String n) ≠ "" := by
    intro n
    simp only [checkType]
    split
    · decide
    · split
      · rw [String.append_assoc]; exact ne_empty_of_append_left _ _ (by decide)
      · decide
  refine ⟨?_, ?_, ?_, hne m, ?_⟩
  · intro h; simp [checkType, h]
  · intro h1 h2
    have e : ("%s VARCHAR(" : String) = "%s VARCHAR" ++ "(" := by decide
    have h3 : ¬ (200 < m) := by omega
    have h4 : 0 < m := by omega
    simp only [checkType, gt_iff_lt, h3, h4, if_false, if_true]
    rw [e]
    simp only [String.append_assoc]
  · intro h
    have h3 : ¬ (200 < m) := by omega
    have h4 : ¬ (0 < m) := by omega
    simp only [checkType, gt_iff_lt, h3, h4, if_false]
    decide
  · intro s hs
    apply buildSchemaQuery_ok
    intro kv hkv
    rcases hs kv hkv with ⟨n, hn⟩ | h
    · rw [hn]; exact hne n
    · exact h

theorem checkType_string_witness :
    checkType ⟨fun format _ => format, fun _ => ""⟩ (.String 255) = "%s LONGTEXT" ∧
    checkType ⟨fun format _ => format, fun _ => ""⟩ (.String 200) = "%s VARCHAR(200)" ∧
    checkType ⟨fun format _ => format, fun _ => ""⟩ (.String 1) = "%s VARCHAR(1)" ∧
    checkType ⟨fun format _ => format, fun _ => ""⟩ (.String 0) = "%s VARCHAR(10000)" ∧
    checkType ⟨fun format _ => format, fun _ => ""⟩ (.String (-3)) = "%s VARCHAR(10000)" :=
  ⟨(checkType_string _ 255).1 (by decide),
   (checkType_string _ 200).2.1 (by decide) (by decide),
   (checkType_string _ 1).2.1 (by decide) (by decide),
   (checkType_string _ 0).2.2.1 (by decide),
   (checkType_string _ (-3)).2.2.1 (by decide)⟩

/-- C11, as stated, fails: a reference field without schema validator, or whose
schema has no field `id`, makes schema compilation return the error
`ErrNotImplemented` with an empty text, whatever the other fields are. -/
theorem buildSchemaQuery_broken_reference_fails :
    buildSchemaQuery ⟨fun format _ => format, fun _ => ""⟩
        ⟨[("name", .mk (.String 10) .nil), ("owner", .mk (.Reference (some (.mk none))) .nil)]⟩
      = some ⟨"", [], some .ErrNotImplemented⟩ ∧
    buildCreateQuery ⟨fun format _ => format, fun _ => ""⟩ "pets"
        ⟨[("owner", .mk (.Reference (some (.mk (some (.mk none
            (some (.mk .Table (.str "users")))))))) .nil),
          ("name", .mk (.String 10) .nil)]⟩ "sqlite3"
      = some ⟨"", [], some .ErrNotImplemented⟩ :=
  ⟨rfl, rfl⟩

/-- C11, amended. For a reference field that is nil, or whose schema validator
is absent, or whose schema has no field `id`, `checkType` returns the empty
fragment, and every schema that holds such a field makes `buildSchemaQuery`
and, for every table name and dialect, `buildCreateQuery` return the error
`ErrNotImplemented` with an empty text and an empty parameter list. -/
theorem buildSchemaQuery_broken_reference (fmt : Fmt) (t : String) (s : Schema) (d : String)
    (h : ∃ kv ∈ s.Fields, brokenReference kv.2.Validator = true) :
    (∀ v : Validator, brokenReference v = true → checkType fmt v = "") ∧
    buildSchemaQuery fmt s = some ⟨"", [], some .ErrNotImplemented⟩ ∧
    buildCreateQuery fmt t s d = some ⟨"", [], some .ErrNotImplemented⟩ := by
  have hb : ∀ v : Validator, brokenReference v = true → checkType fmt v = "" := by
    intro v hv
    match v, hv with
    | .Reference none, _ => rfl
    | .Reference (some (.mk none)), _ => rfl
    | .Reference (some (.mk (some (.mk none _)))), _ => rfl
  have h2 : ∃ kv ∈ s.Fields, checkType fmt kv.2.Validator = "" := by
    obtain ⟨kv, hkv, hk⟩ := h
    exact ⟨kv, hkv, hb _ hk⟩
  refine ⟨hb, ?_, ?_⟩
  · simp [buildSchemaQuery, buildSchemaQuery_loop_failed fmt s.Fields _ h2, failWith]
  · simp [buildCreateQuery, buildSchemaQuery, buildSchemaQuery_loop_failed fmt s.Fields _ h2,
      failWith]

theorem buildSchemaQuery_broken_reference_witness :
    (∀ v : Validator, brokenReference v = true →
      checkType ⟨fun format _ => format, fun _ => ""⟩ v = "") ∧
    buildSchemaQuery ⟨fun format _ => format, fun _ => ""⟩
        ⟨[("name", .mk (.String 10) .nil), ("owner", .mk (.Reference (some (.mk none))) .nil)]⟩
      = some ⟨"", [], some .ErrNotImplemented⟩ ∧
    buildCreateQuery ⟨fun format _ => format, fun _ => ""⟩ "pets"
        ⟨[("name", .mk (.String 10) .nil), ("owner", .mk (.Reference (some (.mk none))) .nil)]⟩
        "postgres"
      = some ⟨"", [], some .ErrNotImplemented⟩ :=
  buildSchemaQuery_broken_reference ⟨fun format _ => format, fun _ => ""⟩ "pets"
    ⟨[("name", .mk (.String 10) .nil), ("owner", .mk (.Reference (some (.mk none))) .nil)]⟩
    "postgres" ⟨("owner", .mk (.Reference (some (.mk none))) .nil), by simp, rfl⟩

/-! ## Leaves, empty junctions and unsupported nodes -/

/-- A pass that ends with an error ends with the error return. -/
theorem translateNode_error_shape (e : Expression) (q : String) (ps : List Value) (r : Ret)
    (err : Error) (h : translateNode e q ps = some r) (he : r.err = some err) :
    r = failWith err := by
  have hsub : ∀ a b : Error, a = b := fun a b => by cases a; cases b; rfl
  cases e with
  | And subs =>
    simp only [translateNode] at h
    split at h
    · exact absurd h (by simp)
    · simp only [Option.some.injEq] at h; subst h; exact congrArg failWith (hsub _ _)
    · split at h
      · exact absurd h (by simp)
      · simp only [Option.some.injEq] at h; subst h; exact absurd he (by simp)
  | Or subs =>
    simp only [translateNode] at h
    split at h
    · exact absurd h (by simp)
    · simp only [Option.some.injEq] at h; subst h; exact congrArg failWith (hsub _ _)
    · split at h
      · exact absurd h (by simp)
      · simp only [Option.some.injEq] at h; subst h; exact absurd he (by simp)
  | Equal f v =>
    cases v <;> simp only [translateNode, Option.some.injEq] at h <;> subst h <;>
      exact absurd he (by simp)
  | NotEqual f v =>
    cases v <;> simp only [translateNode, Option.some.injEq] at h <;> subst h <;>
      exact absurd he (by simp)
  | Unsupported =>
    simp only [translateNode, Option.some.injEq] at h; subst h
    exact congrArg failWith (hsub _ _)
  | _ =>
    simp only [translateNode, Option.some.injEq] at h; subst h; exact absurd he (by simp)

/-- The recursive call `translatePredicate(query.Predicate{subExp})` of the
`And` and `Or` cases is the pass `translateNode subExp "" []`. -/
theorem translatePredicate_singleton (e : Expression) :
    translatePredicate [e] = translateNode e "" [] := by
  simp only [translatePredicate, translatePredicate.loop, Nat.lt_irrefl, if_false]
  cases h : translateNode e "" [] with
  | none => rfl
  | some r =>
    cases he : r.err with
    | none => simp only []; cases r; simp only at he; subst he; rfl
    | some err => rw [translateNode_error_shape e "" [] r err h he]; rfl

/-- C17, as stated, fails: the type switch of the `Equal` case names the type
`int` only, so an integral literal of another integer type, such as an
`int64`, takes the default branch and gives ` IS ?`, not ` = ?`. -/
theorem translatePredicate_equal_int64 :
    translatePredicate [.Equal "age" (.scalar "int64" "5")]
      = some ⟨"age IS ?", [.scalar "int64" "5"], none⟩ ∧
    "age IS ?" ≠ "age = ?" :=
  ⟨rfl, by decide⟩

/-- C17, amended. A leaf translates to its field name followed by its operator
and one placeholder, with the literal as the only parameter: `Equal` gives
` LIKE ?` for a literal of type `string`, ` = ?` for a literal of the Go type
`int` and ` IS ?` for any other literal, nil and the literals of the other
integer types (`int64`, ...) included; `NotEqual` gives ` NOT LIKE ?` for a
literal of type `string` and ` IS NOT ?` for any other literal, those of type
`int` included; `GreaterThan`, `GreaterOrEqual`, `LowerThan` and `LowerOrEqual`
give ` > ?`, ` >= ?`, ` < ?` and ` <= ?`. -/
theorem translatePredicate_leaf (f : String) (v : Value) :
    (∀ s : String,
      translatePredicate [.Equal f (.str s)] = some ⟨f ++ " LIKE ?", [.str s], none⟩) ∧
    (∀ n : Int,
      translatePredicate [.Equal f (.int n)] = some ⟨f ++ " = ?", [.int n], none⟩) ∧
    ((∀ s : String, v ≠ .str s) → (∀ n : Int, v ≠ .int n) →
      translatePredicate [.Equal f v] = some ⟨f ++ " IS ?", [v], none⟩) ∧
    translatePredicate [.Equal f .nil] = some ⟨f ++ " IS ?", [.nil], none⟩ ∧
    (∀ s : String,
      translatePredicate [.NotEqual f (.str s)] = some ⟨f ++ " NOT LIKE ?", [.str s], none⟩) ∧
    ((∀ s : String, v ≠ .str s) →
      translatePredicate [.NotEqual f v] = some ⟨f ++ " IS NOT ?", [v], none⟩) ∧
    (∀ n : Int,
      translatePredicate [.NotEqual f (.int n)] = some ⟨f ++ " IS NOT ?", [.int n], none⟩) ∧
    translatePredicate [.NotEqual f .nil] = some ⟨f ++ " IS NOT ?", [.nil], none⟩ ∧
    translatePredicate [.GreaterThan f v] = some ⟨f ++ " > ?", [v], none⟩ ∧
    translatePredicate [.GreaterOrEqual f v] = some ⟨f ++ " >= ?", [v], none⟩ ∧
    translatePredicate [.LowerThan f v] = some ⟨f ++ " < ?", [v], none⟩ ∧
    translatePredicate [.LowerOrEqual f v] = some ⟨f ++ " <= ?", [v], none⟩ ∧
    (∀ typeName repr : String,
      translatePredicate [.Equal f (.scalar typeName repr)]
        = some ⟨f ++ " IS ?", [.scalar typeName repr], none⟩) := by
  simp only [translatePredicate_singleton]
  refine ⟨fun _ => rfl, fun _ => rfl, ?_, rfl, fun _ => rfl, ?_, fun _ => rfl, rfl, rfl, rfl,
    rfl, rfl, fun _ _ => rfl⟩
  · intro h1 h2
    cases v with
    | str s => exact absurd rfl (h1 s)
    | int n => exact absurd rfl (h2 n)
    | _ => rfl
  · intro h1
    cases v with
    | str s => exact absurd rfl (h1 s)
    | _ => rfl

theorem translatePredicate_leaf_witness :
    translatePredicate [.Equal "name" (.scalar "float64" "1.5")]
      = some ⟨"name" ++ " IS ?", [.scalar "float64" "1.5"], none⟩ ∧
    translatePredicate [.NotEqual "age" (.bool true)]
      = some ⟨"age" ++ " IS NOT ?", [.bool true], none⟩ ∧
    translatePredicate [.Equal "name" (.str "a%")] = some ⟨"name LIKE ?", [.str "a%"], none⟩ ∧
    translatePredicate [.Equal "age" (.int 5)] = some ⟨"age = ?", [.int 5], none⟩ :=
  ⟨(translatePredicate_leaf "name" (.scalar "float64" "1.5")).2.2.1
      (fun _ h => Value.noConfusion h) (fun _ h => Value.noConfusion h),
   (translatePredicate_leaf "age" (.bool true)).2.2.2.2.2.1 (fun _ h => Value.noConfusion h),
   (translatePredicate_leaf "name" .nil).1 "a%",
   (translatePredicate_leaf "age" .nil).2.1 5⟩

mutual
/-- On a tree of supported nodes, a junction without sub-expression anywhere
makes the pass abort: the slice `s[:len(s)-5]` of the empty text is out of
range. -/
theorem translateNode_empty_junction : ∀ (e : Expression),
    e.every nodeSupported = true → e.every nodeNonEmpty = false →
    ∀ (q : String) (ps : List Value), translateNode e q ps = none
  | .And subs, hs, hn, q, ps => by
    simp only [Expression.every, Bool.and_eq_true] at hs
    cases subs with
    | nil => rfl
    | cons x xs =>
      have hn2 : everyAll nodeNonEmpty (x :: xs) = false := by
        simpa [Expression.every, nodeNonEmpty] using hn
      simp only [translateNode, translateSubs_empty_junction " AND " (x :: xs) hs.2 hn2]
  | .Or subs, hs, hn, q, ps => by
    simp only [Expression.every, Bool.and_eq_true] at hs
    cases subs with
    | nil => rfl
    | cons x xs =>
      have hn2 : everyAll nodeNonEmpty (x :: xs) = false := by
        simpa [Expression.every, nodeNonEmpty] using hn
      simp only [translateNode, translateSubs_empty_junction " OR " (x :: xs) hs.2 hn2]
  | .In f vs, _, hn, _, _ => by simp [Expression.every, nodeNonEmpty] at hn
  | .NotIn f vs, _, hn, _, _ => by simp [Expression.every, nodeNonEmpty] at hn
  | .Equal f v, _, hn, _, _ => by simp [Expression.every, nodeNonEmpty] at hn
  | .NotEqual f v, _, hn, _, _ => by simp [Expression.every, nodeNonEmpty] at hn
  | .GreaterThan f v, _, hn, _, _ => by simp [Expression.every, nodeNonEmpty] at hn
  | .GreaterOrEqual f v, _, hn, _, _ => by simp [Expression.every, nodeNonEmpty] at hn
  | .LowerThan f v, _, hn, _, _ => by simp [Expression.every, nodeNonEmpty] at hn
  | .LowerOrEqual f v, _, hn, _, _ => by simp [Expression.every, nodeNonEmpty] at hn
  | .Unsupported, hs, _, _, _ => by simp [Expression.every, nodeSupported] at hs
/-- The same for the inner loop of the `And` and `Or` cases. -/
theorem translateSubs_empty_junction : ∀ (j : String) (es : List Expression),
    everyAll nodeSupported es = true → everyAll nodeNonEmpty es = false →
    ∀ (s : String) (ps : List Value), translateSubs j es s ps = none
  | _, [], _, hn, _, _ => by simp [everyAll] at hn
  | j, e :: es, hs, hn, s, ps => by
    simp only [everyAll, Bool.and_eq_true] at hs
    cases hne : Expression.every nodeNonEmpty e with
    | false =>
      simp only [translateSubs, translateNode_empty_junction e hs.1 hne]
    | true =>
      have hn2 : everyAll nodeNonEmpty es = false := by
        simpa [everyAll, hne] using hn
      simp only [translateSubs, translateNode_regular e hs.1 hne,
        translateSubs_empty_junction j es hs.2 hn2]
end

/-- A predicate of supported nodes with a junction without sub-expression
somewhere makes `translatePredicate` abort. -/
theorem translatePredicate_loop_empty_junction (es : List Expression) :
    everyAll nodeSupported es = true → everyAll nodeNonEmpty es = false →
    ∀ (i : Nat) (q : String) (ps : List Value), translatePredicate.loop es i q ps = none := by
  induction es with
  | nil => intro _ hn; simp [everyAll] at hn
  | cons e es ih =>
    intro hs hn i q ps
    simp only [everyAll, Bool.and_eq_true] at hs
    cases hne : Expression.every nodeNonEmpty e with
    | false => simp only [translatePredicate.loop, translateNode_empty_junction e hs.1 hne]
    | true =>
      have hn2 : everyAll nodeNonEmpty es = false := by
        simpa [everyAll, hne] using hn
      simp only [translatePredicate.loop, translateNode_regular e hs.1 hne, ih hs.2 hn2]

/-- C13. The trimming of the last joiner is out of range for an `And` or `Or`
node that wraps no sub-expression: the translation aborts, at top level and
below other nodes, while a node that wraps exactly one sub-expression is
translated to its parenthesised text. -/
theorem translatePredicate_empty_junction_aborts :
    translatePredicate [.And []] = none ∧
    translatePredicate [.Or []] = none ∧
    translatePredicate [.Equal "a" (.int 1), .Or [.Equal "b" (.int 2), .And []]] = none ∧
    translatePredicate [.And [.Equal "a" (.int 1)]] = some ⟨"(a = ?)", [.int 1], none⟩ ∧
    translatePredicate [.Or [.Equal "a" (.int 1)]] = some ⟨"(a = ?)", [.int 1], none⟩ :=
  ⟨rfl, rfl, rfl, rfl, rfl⟩

/-! ## Parameters of the positional dialect -/

/-- Without a nil parameter, `transformParams_postgres` wraps the sequences and
keeps the other parameters, in order. -/
theorem transformParams_postgres_no_nil (ps : List Value)
    (h : ∀ p ∈ ps, isNil p = false) :
    transformParams_postgres ps = some (ps.map wrapArray) := by
  induction ps with
  | nil => rfl
  | cons p ps ih =>
    have ih2 := ih fun x hx => h x (by simp [hx])
    have hp := h p (by simp)
    cases p <;> simp [transformParams_postgres, ih2, wrapArray, isNil] at hp ⊢

/-- With a nil parameter, `transformParams_postgres` aborts. -/
theorem transformParams_postgres_nil (ps : List Value) (h : ∃ p ∈ ps, isNil p = true) :
    transformParams_postgres ps = none := by
  induction ps with
  | nil => obtain ⟨p, hp, _⟩ := h; exact absurd hp (List.not_mem_nil _)
  | cons p ps ih =>
    cases hp : isNil p with
    | true => cases p <;> simp [isNil] at hp; rfl
    | false =>
      have ih2 : transformParams_postgres ps = none := by
        apply ih
        obtain ⟨x, hx, hx2⟩ := h
        rcases List.mem_cons.1 hx with e | e
        · subst e; rw [hp] at hx2; exact absurd hx2 (by simp)
        · exact ⟨x, e, hx2⟩
      cases p <;> simp [transformParams_postgres, ih2, isNil] at hp ⊢

/-- C14. Under "postgres", `transformParams` aborts on a parameter list that
holds a nil value, such as the parameter of an `Equal` leaf on nil: the call
`reflect.TypeOf(p).Kind()` dereferences a nil type. The same query is built
under "sqlite3", and a list without nil is returned with its sequences
wrapped and its other parameters unchanged. -/
theorem transformParams_postgres_nil_aborts :
    transformParams [.nil] "postgres" = none ∧
    transformParams [.str "a", .nil, .int 1] "postgres" = none ∧
    buildSelectQuery "t" ⟨[.Equal "a" .nil], [], none⟩ "postgres" = none ∧
    buildSelectQuery "t" ⟨[.Equal "a" .nil], [], none⟩ "sqlite3"
      = some ⟨"SELECT * FROM t WHERE a IS ?", [.nil], none⟩ ∧
    transformParams [.int 1, .slice [.str "x", .str "y"], .str "z"] "postgres"
      = some [.int 1, .pqArray (.slice [.str "x", .str "y"]), .str "z"] :=
  ⟨rfl, rfl, rfl, rfl, rfl⟩

/-! ## Unsupported nodes -/

mutual
/-- On a tree whose junctions all wrap a sub-expression, an unsupported node
anywhere makes the pass end with the error return. -/
theorem translateNode_unsupported : ∀ (e : Expression),
    e.every nodeNonEmpty = true → e.every nodeSupported = false →
    ∀ (q : String) (ps : List Value),
      translateNode e q ps = some (failWith .ErrNotImplemented)
  | .And subs, hn, hs, q, ps => by
    simp only [Expression.every, Bool.and_eq_true] at hn
    have hs2 : everyAll nodeSupported subs = false := by
      simpa [Expression.every, nodeSupported] using hs
    simp only [translateNode, translateSubs_unsupported " AND " subs hn.2 hs2]
  | .Or subs, hn, hs, q, ps => by
    simp only [Expression.every, Bool.and_eq_true] at hn
    have hs2 : everyAll nodeSupported subs = false := by
      simpa [Expression.every, nodeSupported] using hs
    simp only [translateNode, translateSubs_unsupported " OR " subs hn.2 hs2]
  | .In f vs, _, hs, _, _ => by simp [Expression.every, nodeSupported] at hs
  | .NotIn f vs, _, hs, _, _ => by simp [Expression.every, nodeSupported] at hs
  | .Equal f v, _, hs, _, _ => by simp [Expression.every, nodeSupported] at hs
  | .NotEqual f v, _, hs, _, _ => by simp [Expression.every, nodeSupported] at hs
  | .GreaterThan f v, _, hs, _, _ => by simp [Expression.every, nodeSupported] at hs
  | .GreaterOrEqual f v, _, hs, _, _ => by simp [Expression.every, nodeSupported] at hs
  | .LowerThan f v, _, hs, _, _ => by simp [Expression.every, nodeSupported] at hs
  | .LowerOrEqual f v, _, hs, _, _ => by simp [Expression.every, nodeSupported] at hs
  | .Unsupported, _, _, _, _ => rfl
/-- The same for the inner loop of the `And` and `Or` cases. -/
theorem translateSubs_unsupported : ∀ (j : String) (es : List Expression),
    everyAll nodeNonEmpty es = true → everyAll nodeSupported es = false →
    ∀ (s : String) (ps : List Value),
      translateSubs j es s ps = some (.failed .ErrNotImplemented)
  | _, [], _, hs, _, _ => by simp [everyAll] at hs
  | j, e :: es, hn, hs, s, ps => by
    simp only [everyAll, Bool.and_eq_true] at hn
    cases hse : Expression.every nodeSupported e with
    | false =>
      simp only [translateSubs, translateNode_unsupported e hn.1 hse, failWith]
    | true =>
      have hs2 : everyAll nodeSupported es = false := by
        simpa [everyAll, hse] using hs
      simp only [translateSubs, translateNode_regular e hse hn.1,
        translateSubs_unsupported j es hn.2 hs2]
end

theorem translatePredicate_loop_unsupported (es : List Expression) :
    everyAll nodeNonEmpty es = true → everyAll nodeSupported es = false →
    ∀ (i : Nat) (q : String) (ps : List Value),
      translatePredicate.loop es i q ps = some (failWith .ErrNotImplemented) := by
  induction es with
  | nil => intro _ hs; simp [everyAll] at hs
  | cons e es ih =>
    intro hn hs i q ps
    simp only [everyAll, Bool.and_eq_true] at hn
    cases hse : Expression.every nodeSupported e with
    | false =>
      simp only [translatePredicate.loop, translateNode_unsupported e hn.1 hse, failWith]
    | true =>
      have hs2 : everyAll nodeSupported es = false := by
        simpa [everyAll, hse] using hs
      simp only [translatePredicate.loop, translateNode_regular e hse hn.1, ih hn.2 hs2]

/-- When every `And` and `Or` of a predicate wraps a sub-expression, an
unsupported node at any depth makes `translatePredicate`, `buildSelectQuery`
and `buildClearQuery` return `ErrNotImplemented` with an empty text and an
empty parameter list, for every table name and dialect. -/
theorem unsupported_node_fails (t : String) (q : Query) (d : String)
    (hn : everyAll nodeNonEmpty q.Predicate = true)
    (hs : everyAll nodeSupported q.Predicate = false) :
    translatePredicate q.Predicate = some ⟨"", [], some .ErrNotImplemented⟩ ∧
    buildSelectQuery t q d = some ⟨"", [], some .ErrNotImplemented⟩ ∧
    buildClearQuery t q d = some ⟨"", [], some .ErrNotImplemented⟩ := by
  have h : translatePredicate q.Predicate = some (failWith .ErrNotImplemented) :=
    translatePredicate_loop_unsupported q.Predicate hn hs 0 "" []
  refine ⟨h, ?_, ?_⟩
  · simp only [buildSelectQuery, buildPredicateQuery, h, failWith]
  · simp only [buildClearQuery, buildPredicateQuery, h, failWith]

/-- C15. An `And` or `Or` node without sub-expression that is met before the
unsupported node makes the translation abort instead of returning the error:
`translatePredicate`, `buildSelectQuery` and `buildClearQuery` return nothing
there. When the unsupported node is met first, the error is returned with an
empty text and an empty parameter list. -/
theorem unsupported_after_empty_junction_aborts :
    translatePredicate [.And [], .Unsupported] = none ∧
    translatePredicate [.Or [.Equal "a" (.int 1), .And []], .Unsupported] = none ∧
    buildSelectQuery "t" ⟨[.And [], .Unsupported], [], none⟩ "sqlite3" = none ∧
    buildClearQuery "t" ⟨[.And [], .Unsupported], [], none⟩ "postgres" = none ∧
    translatePredicate [.Unsupported, .And []] = some ⟨"", [], some .ErrNotImplemented⟩ ∧
    translatePredicate [.Equal "a" (.int 1), .Or [.Equal "b" (.int 2), .Unsupported]]
      = some ⟨"", [], some .ErrNotImplemented⟩ ∧
    buildSelectQuery "t" ⟨[.Equal "a" (.int 1), .Unsupported], [], none⟩ "postgres"
      = some ⟨"", [], some .ErrNotImplemented⟩ :=
  ⟨rfl, rfl, rfl, rfl, rfl, rfl, rfl⟩

/-! ## Composition of translations -/

/-- Parameters already collected are carried through the inner loop. -/
theorem translateSubs_frame (j : String) (es : List Expression) :
    ∀ (s : String) (ps : List Value),
      translateSubs j es s ps
        = (translateSubs j es s []).map fun o =>
            match o with
            | .done s' ps' => .done s' (ps ++ ps')
            | .failed e => .failed e := by
  induction es with
  | nil => intro s ps; simp [translateSubs]
  | cons e es ih =>
    intro s ps
    simp only [translateSubs]
    cases translateNode e "" [] with
    | none => rfl
    | some r =>
      obtain ⟨rq, rp, rerr⟩ := r
      cases rerr with
      | some err => rfl
      | none =>
        simp only []
        rw [ih _ (ps ++ rp), ih _ ([] ++ rp)]
        cases translateSubs j es (s ++ (rq ++ j)) [] with
        | none => rfl
        | some o => cases o <;> simp

/-- Text and parameters already collected are carried through a pass. -/
theorem translateNode_frame (e : Expression) (q : String) (ps : List Value) :
    translateNode e q ps
      = (translateNode e "" []).map fun r =>
          match r.err with
          | none => ⟨q ++ r.sqlQuery, ps ++ r.sqlParams, none⟩
          | some err => failWith err := by
  cases e with
  | And subs =>
    simp only [translateNode]
    rw [translateSubs_frame " AND " subs "" ps]
    cases translateSubs " AND " subs "" [] with
    | none => rfl
    | some o =>
      cases o with
      | failed err => rfl
      | done s ps' =>
        simp only [Option.map_some', List.nil_append]
        cases goSliceTo s ((goLen s : Int) - 5) with
        | none => rfl
        | some t => simp
  | Or subs =>
    simp only [translateNode]
    rw [translateSubs_frame " OR " subs "" ps]
    cases translateSubs " OR " subs "" [] with
    | none => rfl
    | some o =>
      cases o with
      | failed err => rfl
      | done s ps' =>
        simp only [Option.map_some', List.nil_append]
        cases goSliceTo s ((goLen s : Int) - 4) with
        | none => rfl
        | some t => simp
  | Equal f v => cases v <;> simp [translateNode]
  | NotEqual f v => cases v <;> simp [translateNode]
  | Unsupported => rfl
  | _ => simp [translateNode]

theorem translateNode_of_result (e : Expression) (t : String) (p : List Value)
    (h : translateNode e "" [] = some ⟨t, p, none⟩) (q : String) (ps : List Value) :
    translateNode e q ps = some ⟨q ++ t, ps ++ p, none⟩ := by
  rw [translateNode_frame, h]; rfl

/-- The loop of `translatePredicate` after its first pass, from the results of
the nodes. -/
theorem translatePredicate_loop_of_results (es : List Expression)
    (rs : List (String × List Value))
    (h : List.Forall₂ (fun e r => translateNode e "" [] = some ⟨r.1, r.2, none⟩) es rs) :
    ∀ (i : Nat) (q : String) (ps : List Value), 0 < i →
      translatePredicate.loop es i q ps
        = some ⟨q ++ prefixEach " AND " (rs.map Prod.fst), ps ++ (rs.map Prod.snd).flatten,
            none⟩ := by
  induction h with
  | nil => intro i q ps _; simp [translatePredicate.loop, prefixEach]
  | cons hr _ ih =>
    intro i q ps hi
    simp only [translatePredicate.loop, hi, if_true, translateNode_of_result _ _ _ hr,
      ih (i + 1) _ _ (Nat.succ_pos i), List.map_cons, prefixEach, List.flatten_cons]
    simp [String.append_assoc]

/-- The translation of a predicate from the results of its nodes. -/
theorem translatePredicate_of_results (es : List Expression)
    (rs : List (String × List Value))
    (h : List.Forall₂ (fun e r => translateNode e "" [] = some ⟨r.1, r.2, none⟩) es rs) :
    translatePredicate es
      = some ⟨stringsJoin (rs.map Prod.fst) " AND ", (rs.map Prod.snd).flatten, none⟩ := by
  cases h with
  | nil => rfl
  | cons hr hrest =>
    simp only [translatePredicate, translatePredicate.loop, Nat.lt_irrefl, if_false, hr,
      translatePredicate_loop_of_results _ _ hrest (0 + 1) _ _ (Nat.succ_pos 0), List.map_cons,
      stringsJoin_cons, List.flatten_cons]

/-- The results of the nodes from a loop that ends without error. -/
theorem results_of_translatePredicate_loop (es : List Expression) :
    ∀ (i : Nat) (q : String) (ps : List Value) (t : String) (p : List Value), 0 < i →
      translatePredicate.loop es i q ps = some ⟨t, p, none⟩ →
      ∃ rs : List (String × List Value),
        List.Forall₂ (fun e r => translateNode e "" [] = some ⟨r.1, r.2, none⟩) es rs ∧
        t = q ++ prefixEach " AND " (rs.map Prod.fst) ∧ p = ps ++ (rs.map Prod.snd).flatten := by
  induction es with
  | nil =>
    intro i q ps t p _ h
    simp only [translatePredicate.loop, Option.some.injEq, Ret.mk.injEq, and_true] at h
    exact ⟨[], List.Forall₂.nil, by simp [prefixEach, h.1], by simp [h.2]⟩
  | cons e es ih =>
    intro i q ps t p hi h
    simp only [translatePredicate.loop, hi, if_true] at h
    rw [translateNode_frame] at h
    cases hn : translateNode e "" [] with
    | none => rw [hn] at h; exact absurd h (by simp)
    | some r =>
      rw [hn] at h
      obtain ⟨rq, rp, rerr⟩ := r
      cases rerr with
      | some err => simp [failWith] at h
      | none =>
        simp only [Option.map_some'] at h
        obtain ⟨rs, hrs, ht, hp⟩ := ih (i + 1) _ _ t p (Nat.succ_pos i) h
        refine ⟨(rq, rp) :: rs, List.Forall₂.cons hn hrs, ?_, ?_⟩
        · rw [ht]; simp [prefixEach, String.append_assoc]
        · rw [hp]; simp

/-- The results of the nodes from a translation that ends without error. -/
theorem results_of_translatePredicate (es : List Expression) (t : String) (p : List Value)
    (h : translatePredicate es = some ⟨t, p, none⟩) :
    ∃ rs : List (String × List Value),
      List.Forall₂ (fun e r => translateNode e "" [] = some ⟨r.1, r.2, none⟩) es rs ∧
      t = stringsJoin (rs.map Prod.fst) " AND " ∧ p = (rs.map Prod.snd).flatten := by
  cases es with
  | nil =>
    simp only [translatePredicate, translatePredicate.loop, Option.some.injEq, Ret.mk.injEq,
      and_true] at h
    exact ⟨[], List.Forall₂.nil, by simp [stringsJoin, h.1], by simp [h.2]⟩
  | cons e es =>
    simp only [translatePredicate, translatePredicate.loop, Nat.lt_irrefl, if_false] at h
    cases hn : translateNode e "" [] with
    | none => rw [hn] at h; exact absurd h (by simp)
    | some r =>
      rw [hn] at h
      obtain ⟨rq, rp, rerr⟩ := r
      cases rerr with
      | some err => simp [failWith] at h
      | none =>
        simp only [] at h
        obtain ⟨rs, hrs, ht, hp⟩ :=
          results_of_translatePredicate_loop es (0 + 1) _ _ t p (Nat.succ_pos 0) h
        refine ⟨(rq, rp) :: rs, List.Forall₂.cons hn hrs, ?_, ?_⟩
        · rw [ht, List.map_cons, stringsJoin_cons]
        · rw [hp]; simp

/-- The inner loop of the `And` and `Or` cases from the results of the nodes. -/
theorem translateSubs_of_results (j : String) (es : List Expression)
    (rs : List (String × List Value))
    (h : List.Forall₂ (fun e r => translateNode e "" [] = some ⟨r.1, r.2, none⟩) es rs) :
    ∀ (s : String) (ps : List Value),
      translateSubs j es s ps
        = some (.done (s ++ joinerEach j (rs.map Prod.fst)) (ps ++ (rs.map Prod.snd).flatten)) := by
  induction h with
  | nil => intro s ps; simp [translateSubs, joinerEach]
  | cons hr _ ih =>
    intro s ps
    simp only [translateSubs, hr, ih, List.map_cons, joinerEach, List.flatten_cons]
    simp [String.append_assoc]

/-- The `And` and `Or` cases from the results of the sub-expressions. -/
theorem translateNode_junction_of_results (es : List Expression)
    (rs : List (String × List Value)) (hne : es ≠ [])
    (h : List.Forall₂ (fun e r => translateNode e "" [] = some ⟨r.1, r.2, none⟩) es rs) :
    translateNode (.And es) "" []
      = some ⟨"(" ++ stringsJoin (rs.map Prod.fst) " AND " ++ ")", (rs.map Prod.snd).flatten,
          none⟩ ∧
    translateNode (.Or es) "" []
      = some ⟨"(" ++ stringsJoin (rs.map Prod.fst) " OR " ++ ")", (rs.map Prod.snd).flatten,
          none⟩ := by
  cases h with
  | nil => exact absurd rfl hne
  | cons hr hrest =>
    rename_i e r es rs
    have h2 : List.Forall₂ (fun e r => translateNode e "" [] = some ⟨r.1, r.2, none⟩)
        (e :: es) (r :: rs) := List.Forall₂.cons hr hrest
    have hand := goSliceTo_joinerEach " AND " 5 rfl r.1 (rs.map Prod.fst)
    have hor := goSliceTo_joinerEach " OR " 4 rfl r.1 (rs.map Prod.fst)
    simp only [Nat.cast_ofNat] at hand hor
    constructor
    · simp only [translateNode, translateSubs_of_results " AND " _ _ h2, List.map_cons,
        String.empty_append, hand, List.nil_append]
    · simp only [translateNode, translateSubs_of_results " OR " _ _ h2, List.map_cons,
        String.empty_append, hor, List.nil_append]

/-- C12. For a non-empty list of sub-expressions `e1..en` whose singleton
predicates `[ei]` translate to the texts `ti` with the parameters `pi`, the
single node `And[e1..en]` translates to `(t1 AND ... AND tn)` and
`Or[e1..en]` to `(t1 OR ... OR tn)`, with no joiner after `tn`, and the
parameters are `p1 ++ ... ++ pn`; a node with one sub-expression gives
`(t1)`. -/
theorem translatePredicate_junction (es : List Expression) (rs : List (String × List Value))
    (hne : es ≠ [])
    (h : List.Forall₂ (fun e r => translatePredicate [e] = some ⟨r.1, r.2, none⟩) es rs) :
    translatePredicate [.And es]
      = some ⟨"(" ++ stringsJoin (rs.map Prod.fst) " AND " ++ ")", (rs.map Prod.snd).flatten,
          none⟩ ∧
    translatePredicate [.Or es]
      = some ⟨"(" ++ stringsJoin (rs.map Prod.fst) " OR " ++ ")", (rs.map Prod.snd).flatten,
          none⟩ := by
  simp only [translatePredicate_singleton] at h ⊢
  exact translateNode_junction_of_results es rs hne h

theorem translatePredicate_junction_witness :
    (translatePredicate
        [.And [.Equal "a" (.int 1), .In "b" [.str "x", .str "y"], .Or [.LowerThan "c" .nil]]]
      = some ⟨"(" ++ stringsJoin ["a = ?", "b IN (?)", "(c < ?)"] " AND " ++ ")",
          [[Value.int 1], [.slice [.str "x", .str "y"]], [.nil]].flatten, none⟩ ∧
     translatePredicate
        [.Or [.Equal "a" (.int 1), .In "b" [.str "x", .str "y"], .Or [.LowerThan "c" .nil]]]
      = some ⟨"(" ++ stringsJoin ["a = ?", "b IN (?)", "(c < ?)"] " OR " ++ ")",
          [[Value.int 1], [.slice [.str "x", .str "y"]], [.nil]].flatten, none⟩) ∧
    translatePredicate
        [.And [.Equal "a" (.int 1), .In "b" [.str "x", .str "y"], .Or [.LowerThan "c" .nil]]]
      = some ⟨"(a = ? AND b IN (?) AND (c < ?))",
          [.int 1, .slice [.str "x", .str "y"], .nil], none⟩ ∧
    translatePredicate [.Or [.Equal "a" (.int 1)]] = some ⟨"(a = ?)", [.int 1], none⟩ :=
  ⟨translatePredicate_junction
      [.Equal "a" (.int 1), .In "b" [.str "x", .str "y"], .Or [.LowerThan "c" .nil]]
      [("a = ?", [.int 1]), ("b IN (?)", [.slice [.str "x", .str "y"]]), ("(c < ?)", [.nil])]
      (by simp)
      (List.Forall₂.cons rfl (List.Forall₂.cons rfl (List.Forall₂.cons rfl List.Forall₂.nil))),
    rfl, rfl⟩

theorem stringsJoin_append (j : String) (xs ys : List String) (hx : xs ≠ []) (hy : ys ≠ []) :
    stringsJoin (xs ++ ys) j = stringsJoin xs j ++ j ++ stringsJoin ys j := by
  induction xs with
  | nil => exact absurd rfl hx
  | cons x xs ih =>
    cases xs with
    | nil =>
      cases ys with
      | nil => exact absurd rfl hy
      | cons y ys => simp [stringsJoin]
    | cons x2 xs =>
      have := ih (by simp)
      simp only [List.cons_append] at this ⊢
      simp only [stringsJoin, this, String.append_assoc]

/-- C20. The empty predicate translates to the empty text without parameters;
for non-empty predicates `P` and `Q` that translate without error,
`P ++ Q` translates to the text of `P`, ` AND `, the text of `Q`, with the
parameters of `P` followed by those of `Q`; and for a non-empty list `es` that
translates without error as a predicate, the node `And(es)` translates to that
text within parentheses with the same parameters. -/
theorem translatePredicate_homomorphism :
    translatePredicate [] = some ⟨"", [], none⟩ ∧
    (∀ (P Q : Predicate) (tp tq : String) (pp pq : List Value), P ≠ [] → Q ≠ [] →
      translatePredicate P = some ⟨tp, pp, none⟩ →
      translatePredicate Q = some ⟨tq, pq, none⟩ →
      translatePredicate (P ++ Q) = some ⟨tp ++ " AND " ++ tq, pp ++ pq, none⟩) ∧
    (∀ (es : List Expression) (t : String) (ps : List Value), es ≠ [] →
      translatePredicate es = some ⟨t, ps, none⟩ →
      translatePredicate [.And es] = some ⟨"(" ++ t ++ ")", ps, none⟩) := by
  refine ⟨rfl, ?_, ?_⟩
  · intro P Q tp tq pp pq hP hQ h1 h2
    obtain ⟨rs1, hr1, ht1, hp1⟩ := results_of_translatePredicate P tp pp h1
    obtain ⟨rs2, hr2, ht2, hp2⟩ := results_of_translatePredicate Q tq pq h2
    have hn1 : rs1.map Prod.fst ≠ [] := by
      intro e
      have := hr1.length_eq
      rw [List.map_eq_nil_iff] at e
      rw [e] at this
      exact hP (List.length_eq_zero.1 this)
    have hn2 : rs2.map Prod.fst ≠ [] := by
      intro e
      have := hr2.length_eq
      rw [List.map_eq_nil_iff] at e
      rw [e] at this
      exact hQ (List.length_eq_zero.1 this)
    have h := translatePredicate_of_results (P ++ Q) (rs1 ++ rs2) (List.rel_append hr1 hr2)
    rw [h, List.map_append, List.map_append, stringsJoin_append _ _ _ hn1 hn2,
      List.flatten_append, ← ht1, ← ht2, ← hp1, ← hp2]
  · intro es t ps hne h
    obtain ⟨rs, hr, ht, hp⟩ := results_of_translatePredicate es t ps h
    rw [translatePredicate_singleton, (translateNode_junction_of_results es rs hne hr).1,
      ← ht, ← hp]

theorem translatePredicate_homomorphism_witness :
    translatePredicate ([.Equal "a" (.int 1), .In "b" [.str "x"]] ++ [.Or [.LowerThan "c" .nil]])
      = some ⟨"a = ? AND b IN (?)" ++ " AND " ++ "(c < ?)",
          [.int 1, .slice [.str "x"]] ++ [.nil], none⟩ ∧
    translatePredicate [.And [.Equal "a" (.int 1), .In "b" [.str "x"]]]
      = some ⟨"(" ++ "a = ? AND b IN (?)" ++ ")", [.int 1, .slice [.str "x"]], none⟩ :=
  ⟨translatePredicate_homomorphism.2.1 [.Equal "a" (.int 1), .In "b" [.str "x"]]
      [.Or [.LowerThan "c" .nil]] "a = ? AND b IN (?)" "(c < ?)" [.int 1, .slice [.str "x"]]
      [.nil] (by simp) (by simp) rfl rfl,
   translatePredicate_homomorphism.2.2 [.Equal "a" (.int 1), .In "b" [.str "x"]]
      "a = ? AND b IN (?)" [.int 1, .slice [.str "x"]] (by simp) rfl⟩

/-! ## Reference columns -/

/-- C18. For a reference whose target schema has an `id` field that is itself
a reference, and a `table` field, `checkType` returns a template with three
field-name slots, and `buildSchemaQuery`, which passes two operands only to a
template with exactly two `%`, formats it with a single operand, whatever
`fmt.Sprintf` does with the slots left over. For a reference whose `id` field
has the `Table` marker as validator, the template has one slot although the
target schema has both fields. -/
theorem checkType_nested_reference (fmt : Fmt) :
    checkType fmt
        (.Reference (some (.mk (some (.mk
          (some (.mk
            (.Reference (some (.mk (some (.mk (some (.mk .Integer .nil))
              (some (.mk .Table (.str "a")))))))) .nil))
          (some (.mk .Table (.str "b"))))))))
      = "%s INTEGER, FOREIGN KEY (%s) REFERENCES a(id), FOREIGN KEY (%s) REFERENCES b(id)" ∧
    countPercent
        "%s INTEGER, FOREIGN KEY (%s) REFERENCES a(id), FOREIGN KEY (%s) REFERENCES b(id)" = 3 ∧
    buildSchemaQuery fmt
        ⟨[("owner", .mk
          (.Reference (some (.mk (some (.mk
            (some (.mk
              (.Reference (some (.mk (some (.mk (some (.mk .Integer .nil))
                (some (.mk .Table (.str "a")))))))) .nil))
            (some (.mk .Table (.str "b")))))))) .nil)]⟩
      = some ⟨"etag VARCHAR(512),"
          ++ fmt.Sprintf
              "%s INTEGER, FOREIGN KEY (%s) REFERENCES a(id), FOREIGN KEY (%s) REFERENCES b(id)"
              ["owner"], [], none⟩ ∧
    checkType fmt
        (.Reference (some (.mk (some (.mk (some (.mk .Table .nil))
          (some (.mk .Table (.str "users"))))))))
      = ",, FOREIGN KEY (%s) REFERENCES users(id)" ∧
    countPercent ",, FOREIGN KEY (%s) REFERENCES users(id)" = 1 := by
  refine ⟨rfl, by decide, ?_, rfl, by decide⟩
  have hcut := goSliceTo_append
    ("etag VARCHAR(512),"
      ++ fmt.Sprintf
          "%s INTEGER, FOREIGN KEY (%s) REFERENCES a(id), FOREIGN KEY (%s) REFERENCES b(id)"
          ["owner"]) "," 1 rfl
  simp only [Nat.cast_one] at hcut
  have hc : checkType fmt
      (.Reference (some (.mk (some (.mk
        (some (.mk
          (.Reference (some (.mk (some (.mk (some (.mk .Integer .nil))
            (some (.mk .Table (.str "a")))))))) .nil))
        (some (.mk .Table (.str "b"))))))))
      = "%s INTEGER, FOREIGN KEY (%s) REFERENCES a(id), FOREIGN KEY (%s) REFERENCES b(id)" :=
    rfl
  have h0 : goLen
      "%s INTEGER, FOREIGN KEY (%s) REFERENCES a(id), FOREIGN KEY (%s) REFERENCES b(id)" ≠ 0 := by
    decide
  have h1 : ("%s INTEGER, FOREIGN KEY (%s) REFERENCES a(id), FOREIGN KEY (%s) REFERENCES b(id)"
      : String) ≠ "," := by decide
  have h2 : countPercent
      "%s INTEGER, FOREIGN KEY (%s) REFERENCES a(id), FOREIGN KEY (%s) REFERENCES b(id)" ≠ 2 := by
    decide
  simp only [buildSchemaQuery, buildSchemaQuery.loop, Field.Validator, hc, h0, h1, h2, if_false,
    ne_eq, not_false_eq_true, if_true, hcut]

/-! ## Alignment of placeholders and parameters in the item builders -/

theorem ite_ne_of_ne (c : Prop) [Decidable c] (a b x : Char) (ha : a ≠ x) (hb : b ≠ x) :
    (if c then a else b) ≠ x := by
  split <;> assumption

theorem digitChar_ne_question (n : Nat) : Nat.digitChar n ≠ '?' := by
  unfold Nat.digitChar
  repeat' apply ite_ne_of_ne
  all_goals decide

theorem digitChar_ne_dollar (n : Nat) : Nat.digitChar n ≠ '$' := by
  unfold Nat.digitChar
  repeat' apply ite_ne_of_ne
  all_goals decide

/-- The decimal digits of a number avoid a character that no digit is. -/
theorem toDigitsCore_avoids (x : Char) (hx : ∀ n, Nat.digitChar n ≠ x) (fuel : Nat) :
    ∀ (n : Nat) (ds : List Char), x ∉ ds → x ∉ Nat.toDigitsCore 10 fuel n ds := by
  induction fuel with
  | zero => intro n ds h; simpa [Nat.toDigitsCore] using h
  | succ fuel ih =>
    intro n ds h
    have hd : x ∉ Nat.digitChar (n % 10) :: ds := by
      simp only [List.mem_cons, not_or]
      exact ⟨fun e => hx _ e.symm, h⟩
    simp only [Nat.toDigitsCore]
    split
    · exact hd
    · exact ih _ _ hd

theorem countQ_repr (n : Nat) : countQ (Nat.repr n) = 0 := by
  have h : '?' ∉ Nat.toDigits 10 n :=
    toDigitsCore_avoids '?' digitChar_ne_question _ _ _ (List.not_mem_nil _)
  simp only [countQ, Nat.repr, List.asString]
  exact List.count_eq_zero.2 h

theorem countDollar_repr (n : Nat) : countDollar (Nat.repr n) = 0 := by
  have h : '$' ∉ Nat.toDigits 10 n :=
    toDigitsCore_avoids '$' digitChar_ne_dollar _ _ _ (List.not_mem_nil _)
  simp only [countDollar, Nat.repr, List.asString]
  exact List.count_eq_zero.2 h

theorem countDollar_append (s t : String) :
    countDollar (s ++ t) = countDollar s + countDollar t := by
  simp [countDollar]

theorem countQ_numberSegments (segs : List String) :
    (∀ s ∈ segs, countQ s = 0) → ∀ k : Nat, countQ (numberSegments segs k) = 0 := by
  induction segs with
  | nil => intro _ _; rfl
  | cons s rest ih =>
    intro h k
    cases rest with
    | nil => simpa [numberSegments] using h s (by simp)
    | cons t rest =>
      have e : countQ "$" = 0 := by decide
      simp only [numberSegments, countQ_append, h s (by simp), e, countQ_repr,
        ih (fun u hu => h u (by simp [hu])) (k + 1)]

/-- Segments free of `$` joined by markers: one `$` per marker. -/
theorem countDollar_numberSegments (s : String) (rest : List String) :
    (∀ u ∈ s :: rest, countDollar u = 0) →
    ∀ k : Nat, countDollar (numberSegments (s :: rest) k) = rest.length := by
  induction rest generalizing s with
  | nil => intro h k; simpa [numberSegments] using h s (by simp)
  | cons t rest ih =>
    intro h k
    have e : countDollar "$" = 1 := by decide
    simp only [numberSegments, countDollar_append, h s (by simp), e, countDollar_repr,
      ih t (fun u hu => h u (by simp [hu])) (k + 1), List.length_cons]
    omega

theorem countQ_prefixEach_question (xs : List String) (h : ∀ s ∈ xs, countQ s = 0) :
    countQ (prefixEach "?" xs) = xs.length := by
  induction xs with
  | nil => rfl
  | cons x xs ih =>
    have e : countQ "?" = 1 := by decide
    simp only [prefixEach, countQ_append, e, h x (by simp),
      ih (fun s hs => h s (by simp [hs])), List.length_cons]
    omega

/-! ### No digit after a placeholder -/

theorem noDigitAfterQ_append_clean (a b : List Char) (ha : '?' ∉ a) :
    noDigitAfterQ (a ++ b) = noDigitAfterQ b := by
  induction a with
  | nil => rfl
  | cons c a ih =>
    have hc : c ≠ '?' := fun e => ha (by simp [e])
    have hc2 : (c == '?') = false := by simpa using hc
    simp only [List.cons_append, noDigitAfterQ, hc2, Bool.not_false, Bool.true_or,
      Bool.true_and]
    exact ih fun e => ha (by simp [e])

theorem noDigitAfterQ_clean (a : List Char) (ha : '?' ∉ a) : noDigitAfterQ a = true := by
  have := noDigitAfterQ_append_clean a [] ha
  simpa [noDigitAfterQ] using this

theorem startsDigitL_append (a b : List Char) (hb : startsDigitL b = false) :
    startsDigitL (a ++ b) = startsDigitL a := by
  cases a with
  | nil => simpa [startsDigitL] using hb
  | cons c a => rfl

theorem noDigitAfterQ_append_sep (a b : List Char) (hb : startsDigitL b = false) :
    noDigitAfterQ (a ++ b) = (noDigitAfterQ a && noDigitAfterQ b) := by
  induction a with
  | nil => simp [noDigitAfterQ]
  | cons c a ih =>
    rw [List.cons_append]
    simp only [noDigitAfterQ]
    rw [startsDigitL_append a b hb, ih, Bool.and_assoc]

/-- Fragments joined by commas: a placeholder at the end of a fragment is
followed by the comma. -/
theorem noDigitAfterQ_join (frs : List String)
    (h : ∀ f ∈ frs, noDigitAfterQ f.data = true) :
    noDigitAfterQ (stringsJoin frs ",").data = true := by
  induction frs with
  | nil => rfl
  | cons a rest ih =>
    cases rest with
    | nil => simpa [stringsJoin] using h a (by simp)
    | cons b rest =>
      have ih2 := ih fun f hf => h f (by simp [hf])
      have hs : startsDigitL (("," : String).data ++ (stringsJoin (b :: rest) ",").data)
          = false := rfl
      have hcomma : '?' ∉ ("," : String).data := by decide
      simp only [stringsJoin, String.data_append, List.append_assoc]
      rw [noDigitAfterQ_append_sep _ _ hs, noDigitAfterQ_append_clean _ _ hcomma, ih2,
        h a (by simp)]
      rfl

theorem not_mem_stringsJoin (c : Char) (j : String) (hj : c ∉ j.data) (xs : List String)
    (h : ∀ x ∈ xs, c ∉ x.data) : c ∉ (stringsJoin xs j).data := by
  induction xs with
  | nil => simp [stringsJoin]
  | cons a rest ih =>
    cases rest with
    | nil => simpa [stringsJoin] using h a (by simp)
    | cons b rest =>
      have ih2 := ih fun x hx => h x (by simp [hx])
      simp only [stringsJoin, String.data_append, List.mem_append, not_or]
      exact ⟨⟨h a (by simp), hj⟩, ih2⟩

/-- A text without `$`, in which no `?` is followed by a digit, is a sequence of
segments free of `?` and `$`, separated by single `?`, none of which starts
with a digit after the first. -/
theorem exists_segments_strict (cs : List Char) (hd : '$' ∉ cs)
    (hn : noDigitAfterQ cs = true) :
    ∃ segs : List String, segs ≠ [] ∧
      (∀ s ∈ segs, '?' ∉ s.data ∧ '$' ∉ s.data) ∧
      (∀ s ∈ segs.tail, startsWithDigit s = false) ∧
      (∀ s ∈ segs.head?, startsWithDigit s = startsDigitL cs) ∧
      String.mk cs = stringsJoin segs "?" := by
  induction cs with
  | nil => exact ⟨[""], by simp, by simp, by simp, by simp [startsWithDigit], rfl⟩
  | cons c cs ih =>
    have hd2 : '$' ∉ cs := fun e => hd (by simp [e])
    have hcd : c ≠ '$' := fun e => hd (by simp [e])
    simp only [noDigitAfterQ, Bool.and_eq_true, Bool.or_eq_true, Bool.not_eq_true'] at hn
    obtain ⟨segs, hne, hq, htl, hhd, hj⟩ := ih hd2 hn.2
    cases segs with
    | nil => exact absurd rfl hne
    | cons s0 rest =>
      have hs0 : startsWithDigit s0 = startsDigitL cs := hhd s0 (by simp)
      by_cases hc : c = '?'
      · subst hc
        have hdig : startsDigitL cs = false := by
          rcases hn.1 with h | h
          · simp at h
          · exact h
        refine ⟨"" :: s0 :: rest, by simp, ?_, ?_, ?_, ?_⟩
        · intro s hs
          rcases List.mem_cons.1 hs with h | h
          · subst h; simp
          · exact hq s h
        · intro s hs
          simp only [List.tail_cons] at hs
          rcases List.mem_cons.1 hs with h | h
          · subst h; rw [hs0]; exact hdig
          · exact htl s (by simpa using h)
        · intro s hs
          simp only [List.head?_cons, Option.mem_def, Option.some.injEq] at hs
          subst hs
          rfl
        · simp only [stringsJoin, ← hj]
          apply String.ext; simp
      · refine ⟨(String.singleton c ++ s0) :: rest, by simp, ?_, ?_, ?_, ?_⟩
        · intro s hs
          rcases List.mem_cons.1 hs with h | h
          · subst h
            have := hq s0 (by simp)
            simp only [String.data_append, String.data_singleton, List.singleton_append,
              List.mem_cons, not_or]
            exact ⟨⟨fun e => hc e.symm, this.1⟩, ⟨fun e => hcd e.symm, this.2⟩⟩
          · exact hq s (by simp [h])
        · intro s hs
          exact htl s (by simpa using hs)
        · intro s hs
          simp only [List.head?_cons, Option.mem_def, Option.some.injEq] at hs
          subst hs
          rfl
        · cases rest with
          | nil =>
            simp only [stringsJoin] at hj ⊢
            rw [← hj]; apply String.ext; simp
          | cons t rest =>
            simp only [stringsJoin] at hj ⊢
            rw [String.append_assoc, String.append_assoc, ← String.append_assoc s0, ← hj]
            apply String.ext; simp

/-- Under "postgres" a text with `n` placeholders, without `$` and without
digit after a placeholder, becomes a text with exactly the markers `$1`, ...,
`$n` in order and without `?`. -/
theorem markersInOrder_transformQuery (raw : String) (n : Nat) (h : countQ raw = n)
    (hd : countDollar raw = 0) (hn : noDigitAfterQ raw.data = true) :
    markersInOrder (transformQuery raw "postgres") n := by
  obtain ⟨segs, hne, hq, htl, _, hj⟩ :=
    exists_segments_strict raw.data (List.count_eq_zero.1 hd) hn
  have hj2 : raw = stringsJoin segs "?" := hj
  have hclean : ∀ s ∈ segs, countQ s = 0 ∧ countDollar s = 0 := fun s hs =>
    ⟨List.count_eq_zero.2 (hq s hs).1, List.count_eq_zero.2 (hq s hs).2⟩
  have ht : transformQuery raw "postgres" = numberSegments segs 1 := by
    rw [transformQuery_postgres_eq, transformQuery_postgres, hj2]
    exact transformQuery_postgres_loop_segments segs 1 fun s hs => (hq s hs).1
  cases segs with
  | nil => exact absurd rfl hne
  | cons x xs =>
    have hlen : xs.length = n := by
      rw [hj2, stringsJoin_cons, countQ_append, (hclean x (by simp)).1,
        countQ_prefixEach_question xs (fun s hs => (hclean s (by simp [hs])).1)] at h
      omega
    refine ⟨?_, ?_, x :: xs, ?_, hclean, htl, ht⟩
    · rw [ht]; exact countQ_numberSegments _ (fun s hs => (hclean s hs).1) 1
    · rw [ht, countDollar_numberSegments x xs (fun s hs => (hclean s hs).2) 1, hlen]
    · simp only [List.length_cons, hlen]

theorem transformParams_postgres_length (ps ps' : List Value)
    (h : transformParams_postgres ps = some ps') : ps'.length = ps.length := by
  by_cases hn : ∃ p ∈ ps, isNil p = true
  · rw [transformParams_postgres_nil ps hn] at h; exact absurd h (by simp)
  · have hn2 : ∀ p ∈ ps, isNil p = false := by
      intro p hp
      cases hb : isNil p with
      | false => rfl
      | true => exact absurd ⟨p, hp, hb⟩ hn
    rw [transformParams_postgres_no_nil ps hn2] at h
    simp only [Option.some.injEq] at h
    rw [← h, List.length_map]

/-- The common last line of the builders keeps a statement aligned: under a
shared-placeholder dialect it returns it as it is, and under "postgres",
when no parameter is nil, it returns the numbered text with as many
parameters. -/
theorem finish_aligned (raw : String) (ps : List Value) (d : String)
    (h : countQ raw = ps.length) :
    (d ≠ "postgres" →
      ∃ r : Ret, finish raw ps d = some r ∧ r.err = none ∧
        countQ r.sqlQuery = r.sqlParams.length) ∧
    (d = "postgres" → countDollar raw = 0 → noDigitAfterQ raw.data = true →
      (∀ p ∈ ps, isNil p = false) →
      ∃ r : Ret, finish raw ps d = some r ∧ r.err = none ∧
        markersInOrder r.sqlQuery r.sqlParams.length) := by
  constructor
  · intro hd
    exact ⟨_, finish_shared raw ps d hd, rfl, h⟩
  · intro hd hdol hdig hn
    subst hd
    have hp : transformParams ps "postgres" = some (ps.map wrapArray) := by
      simp [transformParams, transformParams_postgres_no_nil ps hn]
    refine ⟨⟨transformQuery raw "postgres", ps.map wrapArray, none⟩, ?_, rfl, ?_⟩
    · simp [finish, hp]
    · simp only [List.length_map]
      exact markersInOrder_transformQuery raw ps.length h hdol hdig

theorem sum_countQ_fst (l : List (String × Value)) (h : ∀ kv ∈ l, countQ kv.1 = 0) :
    ((l.map Prod.fst).map countQ).sum = 0 := by
  induction l with
  | nil => rfl
  | cons kv l ih =>
    simp only [List.map_cons, List.sum_cons, h kv (by simp),
      ih (fun x hx => h x (by simp [hx]))]

theorem sum_countQ_sets (l : List (String × Value)) (h : ∀ kv ∈ l, countQ kv.1 = 0) :
    ((l.map fun kv => kv.1 ++ "=?").map countQ).sum = l.length := by
  induction l with
  | nil => rfl
  | cons kv l ih =>
    have e : countQ "=?" = 1 := by decide
    simp only [List.map_cons, List.sum_cons, countQ_append, h kv (by simp), e,
      ih (fun x hx => h x (by simp [hx])), List.length_cons]
    omega

theorem sum_countQ_nulls (l : List (String × Value)) (h : ∀ kv ∈ l, countQ kv.1 = 0) :
    ((l.map fun kv => kv.1 ++ "=NULL").map countQ).sum = 0 := by
  induction l with
  | nil => rfl
  | cons kv l ih =>
    have e : countQ "=NULL" = 0 := by decide
    simp only [List.map_cons, List.sum_cons, countQ_append, h kv (by simp), e,
      ih (fun x hx => h x (by simp [hx]))]

/-- A part without `?`, a part in which no `?` is followed by a digit, and a
part that does not start with a digit. -/
theorem noDigitAfterQ_wrap (p j s : String) (hp : countQ p = 0)
    (hj : noDigitAfterQ j.data = true) (hs : startsWithDigit s = false)
    (hs2 : noDigitAfterQ s.data = true) : noDigitAfterQ (p ++ j ++ s).data = true := by
  simp only [String.data_append, List.append_assoc]
  rw [noDigitAfterQ_append_clean _ _ (List.count_eq_zero.1 hp), noDigitAfterQ_append_sep _ _ hs,
    hj, hs2]
  rfl

theorem noDigitAfterQ_after_clean (p s : String) (hp : countQ p = 0)
    (hs : noDigitAfterQ s.data = true) : noDigitAfterQ (p ++ s).data = true := by
  simp only [String.data_append]
  rw [noDigitAfterQ_append_clean _ _ (List.count_eq_zero.1 hp), hs]

/-- The statement of `buildInsertQuery` before the dialect transform: one `?`
per parameter, never followed by a digit, and no `$`, when the table name and
the field names hold none. -/
theorem buildInsertQuery_raw_aligned (t : String) (i : Item) (d : String)
    (ht : countQ t = 0) (hi : ∀ kv ∈ i.Payload, countQ kv.1 = 0) :
    ∃ (raw : String) (ps : List Value), buildInsertQuery t i d = finish raw ps d ∧
      countQ raw = ps.length ∧ noDigitAfterQ raw.data = true ∧
      (countDollar t = 0 → (∀ kv ∈ i.Payload, countDollar kv.1 = 0) → countDollar raw = 0) ∧
      ((∀ kv ∈ i.Payload, isNil kv.2 = false) → ∀ p ∈ ps, isNil p = false) := by
  have hk : ∀ kv ∈ i.Payload.filter (fun kv => !isAutoIncrement kv.2), countQ kv.1 = 0 :=
    fun kv hkv => hi kv (List.mem_of_mem_filter hkv)
  have ha : ∀ kv ∈ i.Payload.filter (fun kv => isAutoIncrement kv.2), countQ kv.1 = 0 :=
    fun kv hkv => hi kv (List.mem_of_mem_filter hkv)
  have e1 : countQ "INSERT INTO " = 0 := by decide
  have e2 : countQ " (" = 0 := by decide
  have e3 : countQ ") VALUES (" = 0 := by decide
  have e4 : countQ ")" = 0 := by decide
  have e5 : countQ " RETURNING " = 0 := by decide
  have e6 : countQ "etag" = 0 := by decide
  have e7 : countQ "?" = 1 := by decide
  have e8 : countQ "" = 0 := by decide
  have hc : countQ "," = 0 := by decide
  have hret : countQ (if i.Payload.any (fun kv => isAutoIncrement kv.2) then
        " RETURNING "
          ++ stringsJoin ((i.Payload.filter fun kv => isAutoIncrement kv.2).map Prod.fst) ","
      else "") = 0 := by
    split
    · rw [countQ_append, e5, countQ_stringsJoin "," hc, sum_countQ_fst _ ha]
    · exact e8
  have hcols : countQ (stringsJoin
      ("etag" :: (i.Payload.filter fun kv => !isAutoIncrement kv.2).map Prod.fst) ",") = 0 := by
    rw [countQ_stringsJoin "," hc, List.map_cons, List.sum_cons, e6, sum_countQ_fst _ hk]
  refine ⟨_, _, buildInsertQuery_eq_finish t i d, ?_, ?_, ?_, ?_⟩
  · simp only [countQ_append, e1, e2, e3, e4, ht, hret, hcols, countQ_stringsJoin "," hc,
      List.map_replicate, List.sum_replicate, e7, List.length_cons, List.length_map,
      smul_eq_mul]
    omega
  · rw [String.append_assoc _ ")" _]
    apply noDigitAfterQ_wrap
    · simp only [countQ_append, e1, e2, e3, ht, hcols]
    · apply noDigitAfterQ_join
      intro f hf
      rw [List.eq_of_mem_replicate hf]
      rfl
    · rfl
    · apply noDigitAfterQ_clean
      apply List.count_eq_zero.1
      exact (countQ_append _ _).trans (by rw [e4, hret])
  · intro htd hid
    have hid2 : ∀ x ∈ (i.Payload.filter fun kv => !isAutoIncrement kv.2).map Prod.fst,
        '$' ∉ x.data := by
      intro x hx
      obtain ⟨kv, hkv, rfl⟩ := List.mem_map.1 hx
      exact List.count_eq_zero.1 (hid kv (List.mem_of_mem_filter hkv))
    have hid3 : ∀ x ∈ (i.Payload.filter fun kv => isAutoIncrement kv.2).map Prod.fst,
        '$' ∉ x.data := by
      intro x hx
      obtain ⟨kv, hkv, rfl⟩ := List.mem_map.1 hx
      exact List.count_eq_zero.1 (hid kv (List.mem_of_mem_filter hkv))
    have hcomma : '$' ∉ ("," : String).data := by decide
    apply List.count_eq_zero.2
    simp only [String.data_append, List.mem_append, not_or]
    refine ⟨⟨⟨⟨⟨⟨⟨by decide, List.count_eq_zero.1 htd⟩, by decide⟩, ?_⟩, by decide⟩, ?_⟩,
      by decide⟩, ?_⟩
    · apply not_mem_stringsJoin _ _ hcomma
      intro x hx
      rcases List.mem_cons.1 hx with e | e
      · subst e; decide
      · exact hid2 x e
    · apply not_mem_stringsJoin _ _ hcomma
      intro x hx
      rw [List.eq_of_mem_replicate hx]
      decide
    · split
      · simp only [String.data_append, List.mem_append, not_or]
        exact ⟨by decide, not_mem_stringsJoin _ _ hcomma _ hid3⟩
      · decide
  · intro hn p hp
    rcases List.mem_cons.1 hp with e | e
    · subst e; rfl
    · obtain ⟨kv, hkv, hkv2⟩ := List.mem_map.1 e
      rw [← hkv2]
      exact hn kv (List.mem_of_mem_filter hkv)

/-- The statement of `buildUpdateQuery` before the dialect transform: one `?`
per parameter, never followed by a digit, and no `$`, when the table name and
the field names hold none. -/
theorem buildUpdateQuery_raw_aligned (t : String) (i o : Item) (d : String)
    (ht : countQ t = 0) (hi : ∀ kv ∈ i.Payload, countQ kv.1 = 0)
    (ho : ∀ kv ∈ o.Payload, countQ kv.1 = 0) :
    ∃ (raw : String) (ps : List Value), buildUpdateQuery t i o d = finish raw ps d ∧
      countQ raw = ps.length ∧ noDigitAfterQ raw.data = true ∧
      (countDollar t = 0 → (∀ kv ∈ i.Payload, countDollar kv.1 = 0) →
        (∀ kv ∈ o.Payload, countDollar kv.1 = 0) → countDollar raw = 0) ∧
      (isNil o.ID = false → (∀ kv ∈ i.Payload, isNil kv.2 = false) →
        ∀ p ∈ ps, isNil p = false) := by
  have hk : ∀ kv ∈ i.Payload.filter (fun kv => decide (kv.1 ≠ "id")), countQ kv.1 = 0 :=
    fun kv hkv => hi kv (List.mem_of_mem_filter hkv)
  have hd : ∀ kv ∈ o.Payload.filter (fun kv => !hasKey i.Payload kv.1), countQ kv.1 = 0 :=
    fun kv hkv => ho kv (List.mem_of_mem_filter hkv)
  have e1 : countQ "UPDATE " = 0 := by decide
  have e2 : countQ " SET " = 0 := by decide
  have e3 : countQ " WHERE id=? AND etag=?" = 2 := by decide
  have e4 : countQ "etag=?" = 1 := by decide
  have hc : countQ "," = 0 := by decide
  refine ⟨_, _, buildUpdateQuery_eq_finish t i o d, ?_, ?_, ?_, ?_⟩
  · simp only [countQ_append, e1, e2, e3, ht, countQ_stringsJoin "," hc, List.map_append,
      List.map_cons, List.sum_append, List.sum_cons, e4, sum_countQ_sets _ hk,
      sum_countQ_nulls _ hd, List.length_append, List.length_cons, List.length_map,
      List.length_nil]
    omega
  · apply noDigitAfterQ_wrap
    · simp only [countQ_append, e1, e2, ht]
    · apply noDigitAfterQ_join
      intro f hf
      rcases List.mem_append.1 hf with e | e
      · rcases List.mem_cons.1 e with e | e
        · subst e; rfl
        · obtain ⟨kv, hkv, rfl⟩ := List.mem_map.1 e
          exact noDigitAfterQ_after_clean _ _ (hk kv hkv) rfl
      · obtain ⟨kv, hkv, rfl⟩ := List.mem_map.1 e
        exact noDigitAfterQ_after_clean _ _ (hd kv hkv) rfl
    · rfl
    · rfl
  · intro htd hid hod
    have hcomma : '$' ∉ ("," : String).data := by decide
    apply List.count_eq_zero.2
    simp only [String.data_append, List.mem_append, not_or]
    refine ⟨⟨⟨⟨by decide, List.count_eq_zero.1 htd⟩, by decide⟩, ?_⟩, by decide⟩
    apply not_mem_stringsJoin _ _ hcomma
    intro x hx
    rcases List.mem_append.1 hx with e | e
    · rcases List.mem_cons.1 e with e | e
      · subst e; decide
      · obtain ⟨kv, hkv, rfl⟩ := List.mem_map.1 e
        simp only [String.data_append, List.mem_append, not_or]
        exact ⟨List.count_eq_zero.1 (hid kv (List.mem_of_mem_filter hkv)), by decide⟩
    · obtain ⟨kv, hkv, rfl⟩ := List.mem_map.1 e
      simp only [String.data_append, List.mem_append, not_or]
      exact ⟨List.count_eq_zero.1 (hod kv (List.mem_of_mem_filter hkv)), by decide⟩
  · intro hid hn p hp
    rcases List.mem_append.1 hp with e | e
    · rcases List.mem_cons.1 e with e | e
      · subst e; rfl
      · obtain ⟨kv, hkv, hkv2⟩ := List.mem_map.1 e
        rw [← hkv2]
        exact hn kv (List.mem_of_mem_filter hkv)
    · rcases List.mem_cons.1 e with e | e
      · subst e; exact hid
      · rcases List.mem_cons.1 e with e | e
        · subst e; rfl
        · exact absurd e (List.not_mem_nil _)

/-- The statement of `buildDeleteQuery` before the dialect transform: one `?`
per parameter, never followed by a digit, and no `$`, when the table name
holds none. -/
theorem buildDeleteQuery_raw_aligned (t : String) (i : Item) (d : String)
    (ht : countQ t = 0) :
    ∃ (raw : String) (ps : List Value), buildDeleteQuery t i d = finish raw ps d ∧
      countQ raw = ps.length ∧ noDigitAfterQ raw.data = true ∧
      (countDollar t = 0 → countDollar raw = 0) ∧
      (isNil i.ID = false → ∀ p ∈ ps, isNil p = false) := by
  have e1 : countQ "DELETE FROM " = 0 := by decide
  have e2 : countQ " WHERE id = ?" = 1 := by decide
  have e3 : countQ " AND etag = ?" = 1 := by decide
  have hp : countQ ("DELETE FROM " ++ t) = 0 := by rw [countQ_append, e1, ht]
  by_cases he : i.ETag = ""
  · refine ⟨"DELETE FROM " ++ t ++ " WHERE id = ?", [i.ID], ?_, ?_, ?_, ?_, ?_⟩
    · simp [buildDeleteQuery, he]
    · simp [countQ_append, e1, e2, ht]
    · exact noDigitAfterQ_after_clean _ _ hp rfl
    · intro htd
      apply List.count_eq_zero.2
      simp only [String.data_append, List.mem_append, not_or]
      exact ⟨⟨by decide, List.count_eq_zero.1 htd⟩, by decide⟩
    · intro hid p hp
      rcases List.mem_cons.1 hp with e | e
      · subst e; exact hid
      · exact absurd e (List.not_mem_nil _)
  · refine ⟨"DELETE FROM " ++ t ++ " WHERE id = ?" ++ " AND etag = ?", [i.ID] ++ [.str i.ETag],
      ?_, ?_, ?_, ?_, ?_⟩
    · simp [buildDeleteQuery, he]
    · simp [countQ_append, e1, e2, e3, ht]
    · rw [String.append_assoc]
      exact noDigitAfterQ_after_clean _ _ hp rfl
    · intro htd
      apply List.count_eq_zero.2
      simp only [String.data_append, List.mem_append, not_or]
      exact ⟨⟨⟨by decide, List.count_eq_zero.1 htd⟩, by decide⟩, by decide⟩
    · intro hid p hp
      rcases List.mem_append.1 hp with e | e
      · rcases List.mem_cons.1 e with e | e
        · subst e; exact hid
        · exact absurd e (List.not_mem_nil _)
      · rcases List.mem_cons.1 e with e | e
        · subst e; rfl
        · exact absurd e (List.not_mem_nil _)

/-- C16, as stated, fails: a table name may hold a `?`, and then the statement
has more placeholders than parameters, under a shared-placeholder dialect and
under "postgres", where the text reads `$1` and `$2` for a single parameter;
a table name may hold a `$`, and then the text under "postgres" holds other
`$` than the markers; besides, under "postgres" a nil identifier or payload
value makes the builders abort. -/
theorem builders_misaligned_by_table_name :
    (buildDeleteQuery "t?" ⟨.int 1, "", []⟩ "sqlite3"
        = some ⟨"DELETE FROM t? WHERE id = ?", [.int 1], none⟩ ∧
      countQ "DELETE FROM t? WHERE id = ?" = 2 ∧ [Value.int 1].length = 1) ∧
    (buildDeleteQuery "t?" ⟨.int 1, "", []⟩ "postgres"
        = some ⟨"DELETE FROM t$1 WHERE id = $2", [.int 1], none⟩ ∧
      ¬ markersInOrder "DELETE FROM t$1 WHERE id = $2" 1) ∧
    (buildDeleteQuery "t$1" ⟨.int 1, "", []⟩ "postgres"
        = some ⟨"DELETE FROM t$1 WHERE id = $1", [.int 1], none⟩ ∧
      ¬ markersInOrder "DELETE FROM t$1 WHERE id = $1" 1) ∧
    buildInsertQuery "t?" ⟨.int 1, "v1", [("name", .str "a")]⟩ "sqlite3"
      = some ⟨"INSERT INTO t? (etag,name) VALUES (?,?)", [.str "v1", .str "a"], none⟩ ∧
    buildDeleteQuery "t" ⟨.nil, "", []⟩ "postgres" = none ∧
    buildInsertQuery "t" ⟨.int 1, "v1", [("name", .nil)]⟩ "postgres" = none := by
  refine ⟨⟨rfl, by decide, rfl⟩, ⟨rfl, ?_⟩, ⟨rfl, ?_⟩, rfl, rfl, rfl⟩
  · intro h
    exact absurd h.2.1 (by decide)
  · intro h
    exact absurd h.2.1 (by decide)

/-- C16, amended. For a table name and payloads whose field names hold no `?`,
the statements of `buildInsertQuery`, `buildUpdateQuery` and `buildDeleteQuery`
are returned without error and keep placeholders and parameters aligned:
under a shared-placeholder dialect the number of `?` of the text is the
number of parameters; under "postgres", when the table name and the field
names hold no `$` either and neither the identifiers nor the values of the new
payload are nil, the text holds no `?` and exactly the markers `$1`, ...,
`$n` in increasing order of appearance, `n` being the number of returned
parameters. -/
theorem builders_keep_alignment (t : String) (i o : Item) (d : String)
    (ht : countQ t = 0) (hi : ∀ kv ∈ i.Payload, countQ kv.1 = 0)
    (ho : ∀ kv ∈ o.Payload, countQ kv.1 = 0) :
    (d ≠ "postgres" →
      (∃ r : Ret, buildInsertQuery t i d = some r ∧ r.err = none ∧
        countQ r.sqlQuery = r.sqlParams.length) ∧
      (∃ r : Ret, buildUpdateQuery t i o d = some r ∧ r.err = none ∧
        countQ r.sqlQuery = r.sqlParams.length) ∧
      (∃ r : Ret, buildDeleteQuery t i d = some r ∧ r.err = none ∧
        countQ r.sqlQuery = r.sqlParams.length)) ∧
    (d = "postgres" → countDollar t = 0 → (∀ kv ∈ i.Payload, countDollar kv.1 = 0) →
      (∀ kv ∈ o.Payload, countDollar kv.1 = 0) →
      isNil i.ID = false → isNil o.ID = false → (∀ kv ∈ i.Payload, isNil kv.2 = false) →
      (∃ r : Ret, buildInsertQuery t i d = some r ∧ r.err = none ∧
        markersInOrder r.sqlQuery r.sqlParams.length) ∧
      (∃ r : Ret, buildUpdateQuery t i o d = some r ∧ r.err = none ∧
        markersInOrder r.sqlQuery r.sqlParams.length) ∧
      (∃ r : Ret, buildDeleteQuery t i d = some r ∧ r.err = none ∧
        markersInOrder r.sqlQuery r.sqlParams.length)) := by
  obtain ⟨raw1, ps1, h1, c1, g1, d1, n1⟩ := buildInsertQuery_raw_aligned t i d ht hi
  obtain ⟨raw2, ps2, h2, c2, g2, d2, n2⟩ := buildUpdateQuery_raw_aligned t i o d ht hi ho
  obtain ⟨raw3, ps3, h3, c3, g3, d3, n3⟩ := buildDeleteQuery_raw_aligned t i d ht
  rw [h1, h2, h3]
  constructor
  · intro hd
    exact ⟨(finish_aligned raw1 ps1 d c1).1 hd, (finish_aligned raw2 ps2 d c2).1 hd,
      (finish_aligned raw3 ps3 d c3).1 hd⟩
  · intro hd htd hid hod hiid hoid hn
    exact ⟨(finish_aligned raw1 ps1 d c1).2 hd (d1 htd hid) g1 (n1 hn),
      (finish_aligned raw2 ps2 d c2).2 hd (d2 htd hid hod) g2 (n2 hoid hn),
      (finish_aligned raw3 ps3 d c3).2 hd (d3 htd) g3 (n3 hiid)⟩

set_option maxRecDepth 40000 in
theorem builders_keep_alignment_witness :
    ((∃ r : Ret,
        buildInsertQuery "users" ⟨.int 1, "v2", [("name", .str "b"), ("id", .autoIncrement)]⟩
          "sqlite3" = some r ∧
        r.err = none ∧ countQ r.sqlQuery = r.sqlParams.length) ∧
      (∃ r : Ret,
        buildUpdateQuery "users" ⟨.int 1, "v2", [("name", .str "b"), ("id", .autoIncrement)]⟩
          ⟨.int 1, "v1", [("name", .str "a"), ("age", .int 5)]⟩ "sqlite3" = some r ∧
        r.err = none ∧ countQ r.sqlQuery = r.sqlParams.length) ∧
      (∃ r : Ret,
        buildDeleteQuery "users" ⟨.int 1, "v2", [("name", .str "b"), ("id", .autoIncrement)]⟩
          "sqlite3" = some r ∧
        r.err = none ∧ countQ r.sqlQuery = r.sqlParams.length)) ∧
    ((∃ r : Ret,
        buildInsertQuery "users" ⟨.int 1, "v2", [("name", .str "b"), ("id", .autoIncrement)]⟩
          "postgres" = some r ∧
        r.err = none ∧ markersInOrder r.sqlQuery r.sqlParams.length) ∧
      (∃ r : Ret,
        buildUpdateQuery "users" ⟨.int 1, "v2", [("name", .str "b"), ("id", .autoIncrement)]⟩
          ⟨.int 1, "v1", [("name", .str "a"), ("age", .int 5)]⟩ "postgres" = some r ∧
        r.err = none ∧ markersInOrder r.sqlQuery r.sqlParams.length) ∧
      (∃ r : Ret,
        buildDeleteQuery "users" ⟨.int 1, "v2", [("name", .str "b"), ("id", .autoIncrement)]⟩
          "postgres" = some r ∧
        r.err = none ∧ markersInOrder r.sqlQuery r.sqlParams.length)) ∧
    buildUpdateQuery "users" ⟨.int 1, "v2", [("name", .str "b"), ("id", .autoIncrement)]⟩
        ⟨.int 1, "v1", [("name", .str "a"), ("age", .int 5)]⟩ "postgres"
      = some ⟨"UPDATE users SET etag=$1,name=$2,age=NULL WHERE id=$3 AND etag=$4",
          [.str "v2", .str "b", .int 1, .str "v1"], none⟩ ∧
    markersInOrder "UPDATE users SET etag=$1,name=$2,age=NULL WHERE id=$3 AND etag=$4" 4 := by
  have hs := (builders_keep_alignment "users"
      ⟨.int 1, "v2", [("name", .str "b"), ("id", .autoIncrement)]⟩
      ⟨.int 1, "v1", [("name", .str "a"), ("age", .int 5)]⟩ "sqlite3"
      (by decide) (by decide) (by decide)).1 (by decide)
  have hp := (builders_keep_alignment "users"
      ⟨.int 1, "v2", [("name", .str "b"), ("id", .autoIncrement)]⟩
      ⟨.int 1, "v1", [("name", .str "a"), ("age", .int 5)]⟩ "postgres"
      (by decide) (by decide) (by decide)).2 rfl (by decide) (by decide) (by decide) rfl rfl
      (by decide)
  refine ⟨hs, hp, rfl, ?_⟩
  exact ⟨by decide, by decide,
    ["UPDATE users SET etag=", ",name=", ",age=NULL WHERE id=", " AND etag=", ""], rfl,
    by decide, by decide, by decide⟩

end SqlStorage
